import Mathlib

/-!
Verification development for the Lynqar vault core: shallow embedding of the
encrypted-storage, backup, rate-limiting and TOTP-validation code, with
theorems about the behaviours the specification describes.

Bytes are modelled as `Nat` (with `< 256` tracked where it matters); strings
as `List Char`; the platform crypto primitives (`crypto.subtle`) as an ideal
deterministic cipher/MAC in the Dolev-Yao style, and `btoa`/`atob` and
`JSON.stringify`/`JSON.parse` as concrete executable codecs.
-/

set_option maxHeartbeats 1000000
set_option maxRecDepth 100000

/-! ## Base64 (model of `btoa` / `atob`, used by `toBase64` / `fromBase64` in crypto.ts) -/

/-- The standard base64 alphabet, in order. -/
def b64Alphabet : List Char :=
  "ABCDEFGHIJKLMNOPQRSTUVWXYZabcdefghijklmnopqrstuvwxyz0123456789+/".data

/-- Character for a 6-bit group. -/
def sextetChar (n : Nat) : Char := b64Alphabet.getD n 'A'

/-- Index of a character in the base64 alphabet ( `none` if absent). -/
def b64CharVal (c : Char) : Option Nat :=
  let i := b64Alphabet.indexOf c
  if i < 64 then some i else none

/-- `btoa` over a byte list: 3 bytes become 4 alphabet characters, with
trailing `=` padding for a final 1- or 2-byte group. -/
def b64encode : List Nat → List Char
  | [] => []
  | [a] => [sextetChar (a / 4), sextetChar (a % 4 * 16), '=', '=']
  | [a, b] => [sextetChar (a / 4), sextetChar (a % 4 * 16 + b / 16), sextetChar (b % 16 * 4), '=']
  | a :: b :: c :: rest =>
      sextetChar (a / 4) :: sextetChar (a % 4 * 16 + b / 16) ::
        sextetChar (b % 16 * 4 + c / 64) :: sextetChar (c % 64) :: b64encode rest

/-- `atob` over a character list, producing bytes; invalid input gives `none`
(`atob` throws). Processes four characters at a time; `=` padding is allowed
only in the final group. -/
def b64decode : List Char → Option (List Nat)
  | [] => some []
  | c1 :: c2 :: c3 :: c4 :: rest =>
      match b64CharVal c1, b64CharVal c2 with
      | some v1, some v2 =>
          if c3 = '=' ∧ c4 = '=' ∧ rest = [] then
            some [v1 * 4 + v2 / 16]
          else if c4 = '=' ∧ rest = [] then
            (b64CharVal c3).map fun v3 => [v1 * 4 + v2 / 16, v2 % 16 * 16 + v3 / 4]
          else
            (b64CharVal c3).bind fun v3 =>
              (b64CharVal c4).bind fun v4 =>
                (b64decode rest).map fun tail =>
                  (v1 * 4 + v2 / 16) :: (v2 % 16 * 16 + v3 / 4) :: (v3 % 4 * 64 + v4) :: tail
      | _, _ => none
  | _ => none

theorem b64CharVal_sextetChar : ∀ n < 64, b64CharVal (sextetChar n) = some n := by decide

theorem sextetChar_ne_eq_small : ∀ n < 64, sextetChar n ≠ '=' := by decide

theorem sextetChar_ne_eq (n : Nat) : sextetChar n ≠ '=' := by
  by_cases h : n < 64
  · exact sextetChar_ne_eq_small n h
  · simp only [sextetChar, b64Alphabet]
    rw [List.getD_eq_default]
    · decide
    · simp only [not_lt] at h
      simpa using le_trans (by norm_num) h

/-- Induction principle following `b64encode`'s three-byte grouping. -/
def chunk3Induction {P : List Nat → Prop} (h0 : P []) (h1 : ∀ a, P [a])
    (h2 : ∀ a b, P [a, b]) (h3 : ∀ a b c rest, P rest → P (a :: b :: c :: rest)) :
    ∀ bs, P bs
  | [] => h0
  | [a] => h1 a
  | [a, b] => h2 a b
  | a :: b :: c :: rest => h3 a b c rest (chunk3Induction h0 h1 h2 h3 rest)

/-- Decoding inverts encoding on genuine byte lists. -/
theorem b64decode_b64encode (bs : List Nat) (h : ∀ x ∈ bs, x < 256) :
    b64decode (b64encode bs) = some bs := by
  induction bs using chunk3Induction with
  | h0 => simp [b64encode, b64decode]
  | h1 a =>
      have ha : a < 256 := h a (by simp)
      have e1 := b64CharVal_sextetChar (a / 4) (by omega)
      have e2 := b64CharVal_sextetChar (a % 4 * 16) (by omega)
      simp only [b64encode, b64decode, e1, e2]
      have : a % 4 * 16 / 16 = a % 4 := by omega
      simp [this]
      omega
  | h2 a b =>
      have ha : a < 256 := h a (by simp)
      have hb : b < 256 := h b (by simp)
      have e1 := b64CharVal_sextetChar (a / 4) (by omega)
      have e2 := b64CharVal_sextetChar (a % 4 * 16 + b / 16) (by omega)
      have e3 := b64CharVal_sextetChar (b % 16 * 4) (by omega)
      simp only [b64encode, b64decode, e1, e2, e3]
      have hne : sextetChar (b % 16 * 4) ≠ '=' := sextetChar_ne_eq _
      simp [hne]
      constructor
      · omega
      · omega
  | h3 a b c rest ih =>
      have ha : a < 256 := h a (by simp)
      have hb : b < 256 := h b (by simp)
      have hc : c < 256 := h c (by simp)
      have e1 := b64CharVal_sextetChar (a / 4) (by omega)
      have e2 := b64CharVal_sextetChar (a % 4 * 16 + b / 16) (by omega)
      have e3 := b64CharVal_sextetChar (b % 16 * 4 + c / 64) (by omega)
      have e4 := b64CharVal_sextetChar (c % 64) (by omega)
      have ihr := ih (fun x hx => h x (by simp [hx]))
      have hne3 : sextetChar (b % 16 * 4 + c / 64) ≠ '=' := sextetChar_ne_eq _
      have hne4 : sextetChar (c % 64) ≠ '=' := sextetChar_ne_eq _
      cases rest with
      | nil =>
          simp only [b64encode, b64decode, e1, e2, e3, e4]
          simp [hne3, hne4]
          refine ⟨by omega, by omega, by omega⟩
      | cons r rs =>
          simp only [b64encode] at ihr ⊢
          simp only [b64decode, e1, e2, e3, e4]
          have hz : b64encode (r :: rs) ≠ [] := by
            cases rs with
            | nil => simp [b64encode]
            | cons r2 rs2 =>
                cases rs2 with
                | nil => simp [b64encode]
                | cons r3 rs3 => simp [b64encode]
          simp [hne3, hne4, hz, ihr]
          refine ⟨by omega, by omega, by omega⟩

/-! ## Self-delimiting byte encodings

These serve the ideal-cipher model below: a symbolic AES-GCM ciphertext is a
byte string from which the key identity, IV and plaintext can be recovered
exactly, so decryption succeeds precisely under the key and IV used to
encrypt. Every emitted byte is `< 256`. -/

/-- Fuel-driven base-255 digit worker; any `fuel > n` is adequate. Structural
recursion keeps concrete evaluation definitional. -/
def natBytesAux : Nat → Nat → List Nat
  | 0, _ => []
  | fuel + 1, n => if n < 255 then [n, 255] else (n % 255) :: natBytesAux fuel (n / 255)

/-- A natural number as little-endian base-255 digits terminated by `255`. -/
def natBytes (n : Nat) : List Nat := natBytesAux (n + 1) n

theorem natBytesAux_indep (fuel fuel' n : Nat) (h : n < fuel) (h' : n < fuel') :
    natBytesAux fuel n = natBytesAux fuel' n := by
  induction fuel generalizing n fuel' with
  | zero => omega
  | succ f ih =>
      obtain ⟨f2, rfl⟩ : ∃ f2, fuel' = f2 + 1 := ⟨fuel' - 1, by omega⟩
      by_cases hn : n < 255
      · simp [natBytesAux, hn]
      · simp only [natBytesAux, if_neg hn]
        rw [ih f2 (n / 255) (by omega) (by omega)]

theorem natBytes_eq (n : Nat) :
    natBytes n = if n < 255 then [n, 255] else (n % 255) :: natBytes (n / 255) := by
  by_cases hn : n < 255
  · simp [natBytes, natBytesAux, hn]
  · simp only [natBytes, natBytesAux, if_neg hn]
    rw [natBytesAux_indep n (n / 255 + 1) (n / 255) (by omega) (by omega)]
    rfl

/-- Read one `natBytes`-encoded number, returning it and the remaining bytes. -/
def natDecode : List Nat → Option (Nat × List Nat)
  | [] => none
  | b :: rest =>
      if b = 255 then some (0, rest)
      else (natDecode rest).map fun p => (b + 255 * p.1, p.2)

theorem natDecode_natBytes (n : Nat) (rest : List Nat) :
    natDecode (natBytes n ++ rest) = some (n, rest) := by
  induction n using Nat.strong_induction_on with
  | _ n ih =>
      rw [natBytes_eq]
      by_cases h : n < 255
      · simp only [if_pos h, List.cons_append]
        have h1 : ¬(n = 255) := by omega
        simp [natDecode, h1]
      · simp only [if_neg h, List.cons_append]
        have h1 : ¬(n % 255 = 255) := by omega
        have h2 : n / 255 < n := by omega
        simp [natDecode, h1, ih _ h2]
        omega

theorem natBytes_lt (n : Nat) : ∀ x ∈ natBytes n, x < 256 := by
  induction n using Nat.strong_induction_on with
  | _ n ih =>
      rw [natBytes_eq]
      by_cases h : n < 255
      · simp only [if_pos h]
        intro x hx
        simp at hx
        rcases hx with hx | hx <;> omega
      · simp only [if_neg h]
        intro x hx
        simp at hx
        rcases hx with hx | hx
        · omega
        · exact ih _ (by omega) _ hx

/-- A list of naturals: count first, then each element, all `natBytes`-encoded. -/
def natsBytes (xs : List Nat) : List Nat :=
  natBytes xs.length ++ (xs.map natBytes).flatten

/-- Read `k` `natBytes`-encoded numbers. -/
def natsDecodeAux : Nat → List Nat → Option (List Nat × List Nat)
  | 0, bs => some ([], bs)
  | k + 1, bs =>
      (natDecode bs).bind fun p =>
        (natsDecodeAux k p.2).map fun q => (p.1 :: q.1, q.2)

/-- Read one `natsBytes`-encoded list. -/
def natsDecode (bs : List Nat) : Option (List Nat × List Nat) :=
  (natDecode bs).bind fun p => natsDecodeAux p.1 p.2

theorem natsDecodeAux_spec (xs : List Nat) (rest : List Nat) :
    natsDecodeAux xs.length ((xs.map natBytes).flatten ++ rest) = some (xs, rest) := by
  induction xs with
  | nil => simp [natsDecodeAux]
  | cons x xs ih =>
      simp only [List.map_cons, List.flatten_cons, List.length_cons, List.append_assoc]
      simp [natsDecodeAux, natDecode_natBytes, ih]

theorem natsDecode_natsBytes (xs : List Nat) (rest : List Nat) :
    natsDecode (natsBytes xs ++ rest) = some (xs, rest) := by
  simp [natsDecode, natsBytes, natDecode_natBytes, natsDecodeAux_spec]

theorem natsBytes_lt (xs : List Nat) : ∀ x ∈ natsBytes xs, x < 256 := by
  intro x hx
  simp only [natsBytes, List.mem_append] at hx
  rcases hx with hx | hx
  · exact natBytes_lt _ _ hx
  · rw [List.mem_flatten] at hx
    obtain ⟨l, hl, hxl⟩ := hx
    rw [List.mem_map] at hl
    obtain ⟨n, _, rfl⟩ := hl
    exact natBytes_lt _ _ hxl

/-! ## Ideal model of the Web Crypto primitives

The source derives keys in three distinct ways (crypto.ts `deriveKey` via
PBKDF2; backup.ts backup-encryption and backup-checksum keys via HKDF with
fixed context strings). Key derivation is deterministic in its inputs, and
distinct derivations give unrelated keys, so a key is modelled by its
derivation parameters. -/

inductive CKey where
  /-- `deriveKey(password, saltB64, iterations)`: PBKDF2-HMAC-SHA256, AES-256-GCM key.
  The salt is the decoded salt bytes. -/
  | pbkdf2 (password : List Char) (salt : List Nat) (iterations : Nat)
  /-- backup.ts HKDF key, salt string `backup-encryption`, AES-256-GCM. -/
  | hkdfEnc (password : List Char)
  /-- backup.ts HKDF key, salt `backup-checksum`, info `backup-integrity`, HMAC-SHA256. -/
  | hkdfHmac (password : List Char)
deriving DecidableEq

/-- UTF character codes of a string (model of `TextEncoder.encode`). -/
def utf8Enc (s : List Char) : List Nat := s.map Char.toNat

/-- Model of `TextDecoder.decode`. -/
def utf8Dec (bs : List Nat) : List Char := bs.map Char.ofNat

theorem utf8Dec_utf8Enc (s : List Char) : utf8Dec (utf8Enc s) = s := by
  have h : Char.ofNat ∘ Char.toNat = id := funext fun c => Char.ofNat_toNat c
  simp [utf8Dec, utf8Enc, List.map_map, h]

/-- Injective byte serialization of a key's derivation parameters. -/
def keyBytes : CKey → List Nat
  | .pbkdf2 pw salt iter => natBytes 0 ++ natsBytes (utf8Enc pw) ++ natsBytes salt ++ natBytes iter
  | .hkdfEnc pw => natBytes 1 ++ natsBytes (utf8Enc pw)
  | .hkdfHmac pw => natBytes 2 ++ natsBytes (utf8Enc pw)

/-- Ideal AES-256-GCM encryption (`crypto.subtle.encrypt`): the ciphertext
determines key identity, IV and plaintext. -/
def encBytes (k : CKey) (iv pt : List Nat) : List Nat :=
  keyBytes k ++ natsBytes iv ++ natsBytes pt

/-- Ideal AES-256-GCM decryption (`crypto.subtle.decrypt`): fails closed
(`none`) unless the ciphertext was produced under the same key and IV. -/
def decBytes (k : CKey) (iv ct : List Nat) : Option (List Nat) :=
  let pre := keyBytes k ++ natsBytes iv
  if ct.take pre.length = pre then
    (natsDecode (ct.drop pre.length)).bind fun p =>
      if p.2 = [] then some p.1 else none
  else none

theorem decBytes_encBytes (k : CKey) (iv pt : List Nat) :
    decBytes k iv (encBytes k iv pt) = some pt := by
  have hassoc : encBytes k iv pt = (keyBytes k ++ natsBytes iv) ++ natsBytes pt := by
    simp [encBytes, List.append_assoc]
  have h3 := natsDecode_natsBytes pt []
  rw [List.append_nil] at h3
  rw [decBytes, hassoc]
  rw [List.take_left, List.drop_left, if_pos rfl, h3]
  rfl

theorem keyBytes_lt (k : CKey) : ∀ x ∈ keyBytes k, x < 256 := by
  intro x hx
  cases k with
  | pbkdf2 pw salt iter =>
      simp only [keyBytes, List.mem_append] at hx
      rcases hx with ((hx | hx) | hx) | hx
      · exact natBytes_lt _ _ hx
      · exact natsBytes_lt _ _ hx
      · exact natsBytes_lt _ _ hx
      · exact natBytes_lt _ _ hx
  | hkdfEnc pw =>
      simp only [keyBytes, List.mem_append] at hx
      rcases hx with hx | hx
      · exact natBytes_lt _ _ hx
      · exact natsBytes_lt _ _ hx
  | hkdfHmac pw =>
      simp only [keyBytes, List.mem_append] at hx
      rcases hx with hx | hx
      · exact natBytes_lt _ _ hx
      · exact natsBytes_lt _ _ hx

theorem encBytes_lt (k : CKey) (iv pt : List Nat) : ∀ x ∈ encBytes k iv pt, x < 256 := by
  intro x hx
  simp only [encBytes, List.mem_append] at hx
  rcases hx with (hx | hx) | hx
  · exact keyBytes_lt _ _ hx
  · exact natsBytes_lt _ _ hx
  · exact natsBytes_lt _ _ hx

/-- Ideal HMAC-SHA256 signature (`crypto.subtle.sign('HMAC', ...)`):
deterministic in key and message, collision-free across distinct inputs. -/
def hmacBytes (k : CKey) (msg : List Nat) : List Nat :=
  keyBytes k ++ natsBytes msg

/-! ## JSON values (model of the `JSON.stringify` / `JSON.parse` platform primitives)

JSON values as the source manipulates them: the vault records, encrypted
envelopes and backup structures are all plain JSON objects. Numbers are
modelled as integers (every number the vault serializes is an integer), and
object fields keep insertion order, as `JSON.stringify` does. -/

mutual
inductive Json where
  | jnull
  | jbool (b : Bool)
  | jnum (n : Int)
  | jstr (s : List Char)
  | jarr (elems : JArr)
  | jobj (fields : JObj)
inductive JArr where
  | nil
  | cons (head : Json) (tail : JArr)
inductive JObj where
  | nil
  | cons (key : List Char) (value : Json) (tail : JObj)
end

/-- The `{` character (written by code point to keep brace characters out of
literals). -/
def lbrace : Char := Char.ofNat 123

/-- The `}` character. -/
def rbrace : Char := Char.ofNat 125

def digitChar (n : Nat) : Char := Char.ofNat (48 + n)

/-- Fuel-driven decimal-digit worker; any `fuel > n` is adequate. -/
def natToCharsAux : Nat → Nat → List Char
  | 0, _ => []
  | fuel + 1, n =>
      if n < 10 then [digitChar n] else natToCharsAux fuel (n / 10) ++ [digitChar (n % 10)]

/-- Decimal digits of a natural number, most significant first. -/
def natToChars (n : Nat) : List Char := natToCharsAux (n + 1) n

theorem natToCharsAux_indep (fuel fuel' n : Nat) (h : n < fuel) (h' : n < fuel') :
    natToCharsAux fuel n = natToCharsAux fuel' n := by
  induction fuel generalizing n fuel' with
  | zero => omega
  | succ f ih =>
      obtain ⟨f2, rfl⟩ : ∃ f2, fuel' = f2 + 1 := ⟨fuel' - 1, by omega⟩
      by_cases hn : n < 10
      · simp [natToCharsAux, hn]
      · simp only [natToCharsAux, if_neg hn]
        rw [ih f2 (n / 10) (by omega) (by omega)]

theorem natToChars_eq (n : Nat) :
    natToChars n = if n < 10 then [digitChar n] else natToChars (n / 10) ++ [digitChar (n % 10)] := by
  by_cases hn : n < 10
  · simp [natToChars, natToCharsAux, hn]
  · simp only [natToChars, natToCharsAux, if_neg hn]
    rw [natToCharsAux_indep n (n / 10 + 1) (n / 10) (by omega) (by omega)]
    rfl

/-- Decimal rendering of an integer, as JavaScript prints integral numbers. -/
def intToChars (i : Int) : List Char :=
  if i < 0 then '-' :: natToChars i.natAbs else natToChars i.natAbs

def isDigit (c : Char) : Bool := decide (48 ≤ c.toNat ∧ c.toNat ≤ 57)

def digitVal (c : Char) : Nat := c.toNat - 48

def digitsToNat (ds : List Char) : Nat := ds.foldl (fun a c => a * 10 + digitVal c) 0

/-- Lowercase hex digit, as `JSON.stringify` emits in `\u00XX` escapes. -/
def hexDigitChar (n : Nat) : Char :=
  if n < 10 then Char.ofNat (48 + n) else Char.ofNat (87 + n)

def hexVal (c : Char) : Option Nat :=
  if 48 ≤ c.toNat ∧ c.toNat ≤ 57 then some (c.toNat - 48)
  else if 97 ≤ c.toNat ∧ c.toNat ≤ 102 then some (c.toNat - 87)
  else if 65 ≤ c.toNat ∧ c.toNat ≤ 70 then some (c.toNat - 55)
  else none

/-- `JSON.stringify`'s escaping of one string character. -/
def escapeChar (c : Char) : List Char :=
  if c = '"' then ['\\', '"']
  else if c = '\\' then ['\\', '\\']
  else if c.toNat = 8 then ['\\', 'b']
  else if c.toNat = 9 then ['\\', 't']
  else if c.toNat = 10 then ['\\', 'n']
  else if c.toNat = 12 then ['\\', 'f']
  else if c.toNat = 13 then ['\\', 'r']
  else if c.toNat < 32 then ['\\', 'u', '0', '0', hexDigitChar (c.toNat / 16), hexDigitChar (c.toNat % 16)]
  else [c]

def escapeStr (s : List Char) : List Char := (s.map escapeChar).flatten

/-- A JSON string literal: quote, escaped body, quote. -/
def quoteStr (s : List Char) : List Char := '"' :: (escapeStr s ++ ['"'])

mutual
/-- `JSON.stringify` (no whitespace, insertion-order keys). -/
def jsonStr : Json → List Char
  | .jnull => ['n', 'u', 'l', 'l']
  | .jbool true => ['t', 'r', 'u', 'e']
  | .jbool false => ['f', 'a', 'l', 's', 'e']
  | .jnum n => intToChars n
  | .jstr s => quoteStr s
  | .jarr .nil => ['[', ']']
  | .jarr (.cons h t) => '[' :: (jsonStr h ++ arrTailStr t)
  | .jobj .nil => [lbrace, rbrace]
  | .jobj (.cons k v t) => lbrace :: (quoteStr k ++ ':' :: (jsonStr v ++ objTailStr t))
/-- Rendering of an array after its first element: `,`-separated items then `]`. -/
def arrTailStr : JArr → List Char
  | .nil => [']']
  | .cons h t => ',' :: (jsonStr h ++ arrTailStr t)
/-- Rendering of an object after its first member. -/
def objTailStr : JObj → List Char
  | .nil => [rbrace]
  | .cons k v t => ',' :: (quoteStr k ++ ':' :: (jsonStr v ++ objTailStr t))
end

/-- Read a decimal number (at least one digit). -/
def parseDigits (cs : List Char) : Option (Nat × List Char) :=
  let ds := cs.takeWhile isDigit
  if ds = [] then none else some (digitsToNat ds, cs.dropWhile isDigit)

/-- Inverse of a two-character escape. -/
def unescapeChar (e : Char) : Option Char :=
  if e = '"' then some '"'
  else if e = '\\' then some '\\'
  else if e = '/' then some '/'
  else if e = 'b' then some (Char.ofNat 8)
  else if e = 'f' then some (Char.ofNat 12)
  else if e = 'n' then some (Char.ofNat 10)
  else if e = 'r' then some (Char.ofNat 13)
  else if e = 't' then some (Char.ofNat 9)
  else none

mutual
/-- Read a JSON string body up to (and consuming) the closing quote. Fuel
makes the mutual recursion structural; any fuel beyond the input length is
adequate. -/
def parseStrBody : Nat → List Char → Option (List Char × List Char)
  | 0, _ => none
  | _ + 1, [] => none
  | fuel + 1, c :: rest =>
      if c = '"' then some ([], rest)
      else if c = '\\' then parseEscape fuel rest
      else (parseStrBody fuel rest).map fun p => (c :: p.1, p.2)
/-- Read what follows a backslash inside a string body. -/
def parseEscape : Nat → List Char → Option (List Char × List Char)
  | 0, _ => none
  | _ + 1, [] => none
  | fuel + 1, e :: rest2 =>
      if e = 'u' then parseHexRef fuel rest2
      else
        (unescapeChar e).bind fun u =>
          (parseStrBody fuel rest2).map fun p => (u :: p.1, p.2)
/-- Read the four hex digits of a `\uXXXX` escape, then the rest of the body. -/
def parseHexRef : Nat → List Char → Option (List Char × List Char)
  | 0, _ => none
  | fuel + 1, h1 :: h2 :: h3 :: h4 :: rest3 =>
      (hexVal h1).bind fun v1 =>
        (hexVal h2).bind fun v2 =>
          (hexVal h3).bind fun v3 =>
            (hexVal h4).bind fun v4 =>
              (parseStrBody fuel rest3).map fun p =>
                (Char.ofNat (v1 * 4096 + v2 * 256 + v3 * 16 + v4) :: p.1, p.2)
  | _ + 1, _ => none
end

/-- Match a literal keyword tail (the characters of `null` / `true` / `false`
after the first), yielding `v`. -/
def parseKeyword (lit : List Char) (v : Json) (rest : List Char) : Option (Json × List Char) :=
  if rest.take lit.length = lit then some (v, rest.drop lit.length) else none

mutual
/-- `JSON.parse` (on the whitespace-free grammar `JSON.stringify` emits),
with recursion fuel. -/
def parseVal : Nat → List Char → Option (Json × List Char)
  | 0, _ => none
  | fuel + 1, cs =>
      match cs with
      | [] => none
      | c :: rest =>
          if c = 'n' then parseKeyword ['u', 'l', 'l'] .jnull rest
          else if c = 't' then parseKeyword ['r', 'u', 'e'] (.jbool true) rest
          else if c = 'f' then parseKeyword ['a', 'l', 's', 'e'] (.jbool false) rest
          else if c = '"' then
            (parseStrBody (rest.length + 1) rest).map fun p => (.jstr p.1, p.2)
          else if c = '[' then
            if rest.head? = some ']' then some (.jarr .nil, rest.tail)
            else
              (parseVal fuel rest).bind fun p =>
                (parseArrTail fuel p.2).map fun q => (.jarr (.cons p.1 q.1), q.2)
          else if c = lbrace then
            if rest.head? = some rbrace then some (.jobj .nil, rest.tail)
            else
              (parseMember fuel rest).bind fun p =>
                (parseObjTail fuel p.2).map fun q => (.jobj (.cons p.1.1 p.1.2 q.1), q.2)
          else if c = '-' then
            (parseDigits rest).map fun p => (.jnum (-(p.1 : Int)), p.2)
          else if isDigit c then
            (parseDigits (c :: rest)).map fun p => (.jnum (p.1 : Int), p.2)
          else none
/-- One `"key":value` object member. -/
def parseMember : Nat → List Char → Option ((List Char × Json) × List Char)
  | 0, _ => none
  | fuel + 1, cs =>
      match cs with
      | [] => none
      | c :: rest =>
          if c = '"' then
            (parseStrBody (rest.length + 1) rest).bind fun p =>
              match p.2 with
              | ':' :: r2 => (parseVal fuel r2).map fun q => ((p.1, q.1), q.2)
              | _ => none
          else none
/-- An array after its first element. -/
def parseArrTail : Nat → List Char → Option (JArr × List Char)
  | 0, _ => none
  | fuel + 1, cs =>
      match cs with
      | [] => none
      | c :: rest =>
          if c = ']' then some (.nil, rest)
          else if c = ',' then
            (parseVal fuel rest).bind fun p =>
              (parseArrTail fuel p.2).map fun q => (.cons p.1 q.1, q.2)
          else none
/-- An object after its first member. -/
def parseObjTail : Nat → List Char → Option (JObj × List Char)
  | 0, _ => none
  | fuel + 1, cs =>
      match cs with
      | [] => none
      | c :: rest =>
          if c = rbrace then some (.nil, rest)
          else if c = ',' then
            (parseMember fuel rest).bind fun p =>
              (parseObjTail fuel p.2).map fun q => (.cons p.1.1 p.1.2 q.1, q.2)
          else none
end

/-- `JSON.parse`: the whole input must be consumed. -/
def parseJson (s : List Char) : Option Json :=
  (parseVal (s.length + 1) s).bind fun p => if p.2 = [] then some p.1 else none

/-! ### Round trip: parsing inverts `jsonStr` -/

theorem digitVal_digitChar : ∀ d < 10, digitVal (digitChar d) = d := by decide

theorem isDigit_digitChar : ∀ d < 10, isDigit (digitChar d) = true := by decide

theorem natToChars_digits (n : Nat) : ∀ c ∈ natToChars n, isDigit c = true := by
  induction n using Nat.strong_induction_on with
  | _ n ih =>
      rw [natToChars_eq]
      by_cases h : n < 10
      · simp only [if_pos h]
        intro c hc
        simp at hc
        subst hc
        exact isDigit_digitChar n h
      · simp only [if_neg h]
        intro c hc
        rw [List.mem_append] at hc
        rcases hc with hc | hc
        · exact ih _ (by omega) _ hc
        · simp at hc
          subst hc
          exact isDigit_digitChar _ (by omega)

theorem natToChars_ne_nil (n : Nat) : natToChars n ≠ [] := by
  rw [natToChars_eq]
  by_cases h : n < 10
  · simp [if_pos h]
  · simp [if_neg h]

theorem digitsToNat_append_digit (xs : List Char) (c : Char) :
    digitsToNat (xs ++ [c]) = digitsToNat xs * 10 + digitVal c := by
  simp [digitsToNat, List.foldl_append]

theorem digitsToNat_natToChars (n : Nat) : digitsToNat (natToChars n) = n := by
  induction n using Nat.strong_induction_on with
  | _ n ih =>
      rw [natToChars_eq]
      by_cases h : n < 10
      · simp only [if_pos h]
        have : digitsToNat [digitChar n] = digitVal (digitChar n) := by
          simp [digitsToNat]
        rw [this, digitVal_digitChar n h]
      · simp only [if_neg h]
        rw [digitsToNat_append_digit, ih _ (by omega), digitVal_digitChar _ (by omega)]
        omega

/-- The continuation after a serialized value never starts with a digit, so a
serialized number is parsed back without absorbing following characters. -/
def restOk (rest : List Char) : Prop :=
  ∀ c, rest.head? = some c → isDigit c = false

theorem restOk_nil : restOk [] := by
  intro c hc
  simp at hc

theorem takeWhile_append_all {p : Char → Bool} (xs rest : List Char)
    (hxs : ∀ c ∈ xs, p c = true) (hrest : ∀ c, rest.head? = some c → p c = false) :
    (xs ++ rest).takeWhile p = xs ∧ (xs ++ rest).dropWhile p = rest := by
  induction xs with
  | nil =>
      simp only [List.nil_append]
      cases rest with
      | nil => simp
      | cons r rs =>
          have := hrest r (by simp)
          simp [List.takeWhile_cons, List.dropWhile_cons, this]
  | cons x xs ih =>
      have hx := hxs x (by simp)
      have ih2 := ih (fun c hc => hxs c (by simp [hc]))
      simp [List.takeWhile_cons, List.dropWhile_cons, hx, ih2.1, ih2.2]

theorem parseDigits_natToChars (n : Nat) (rest : List Char) (h : restOk rest) :
    parseDigits (natToChars n ++ rest) = some (n, rest) := by
  obtain ⟨h1, h2⟩ := takeWhile_append_all (p := isDigit) (natToChars n) rest
    (natToChars_digits n) h
  simp [parseDigits, h1, h2, natToChars_ne_nil, digitsToNat_natToChars]

theorem hexVal_hexDigitChar : ∀ n < 16, hexVal (hexDigitChar n) = some n := by decide

theorem escapeStr_cons (c : Char) (s : List Char) :
    escapeStr (c :: s) = escapeChar c ++ escapeStr s := by
  simp [escapeStr]

theorem hexVal_zero : hexVal '0' = some 0 := by decide

theorem parseStrBody_escape (s : List Char) (rest : List Char) :
    ∀ fuel, (escapeStr s).length < fuel →
      parseStrBody fuel (escapeStr s ++ '"' :: rest) = some (s, rest) := by
  induction s with
  | nil =>
      intro fuel hf
      obtain ⟨f, rfl⟩ : ∃ f, fuel = f + 1 := ⟨fuel - 1, by omega⟩
      simp [escapeStr, parseStrBody]
  | cons c s ih =>
      intro fuel hf
      rw [escapeStr_cons, List.append_assoc]
      rw [escapeStr_cons, List.length_append] at hf
      by_cases h1 : c = '"'
      · subst h1
        have hlen : (escapeChar '"').length = 2 := by decide
        rw [hlen] at hf
        obtain ⟨f, rfl⟩ : ∃ f, fuel = f + 2 := ⟨fuel - 2, by omega⟩
        have ihf := ih f (by omega)
        simp [escapeChar, parseStrBody, parseEscape, unescapeChar, ihf]
      on_goal 1 => by_cases h2 : c = '\\'
      · subst h2
        have hlen : (escapeChar '\\').length = 2 := by decide
        rw [hlen] at hf
        obtain ⟨f, rfl⟩ : ∃ f, fuel = f + 2 := ⟨fuel - 2, by omega⟩
        have ihf := ih f (by omega)
        simp [escapeChar, h1, parseStrBody, parseEscape, unescapeChar, ihf]
      on_goal 1 => by_cases h3 : c.toNat = 8
      · have hc : Char.ofNat 8 = c := by rw [← h3, Char.ofNat_toNat]
        have hlen : (escapeChar c).length = 2 := by simp [escapeChar, h1, h2, h3]
        rw [hlen] at hf
        obtain ⟨f, rfl⟩ : ∃ f, fuel = f + 2 := ⟨fuel - 2, by omega⟩
        have ihf := ih f (by omega)
        simp [escapeChar, h1, h2, h3, parseStrBody, parseEscape, unescapeChar, ihf, hc]
        try exact hc
      on_goal 1 => by_cases h4 : c.toNat = 9
      · have hc : Char.ofNat 9 = c := by rw [← h4, Char.ofNat_toNat]
        have hlen : (escapeChar c).length = 2 := by simp [escapeChar, h1, h2, h3, h4]
        rw [hlen] at hf
        obtain ⟨f, rfl⟩ : ∃ f, fuel = f + 2 := ⟨fuel - 2, by omega⟩
        have ihf := ih f (by omega)
        simp [escapeChar, h1, h2, h3, h4, parseStrBody, parseEscape, unescapeChar, ihf, hc]
        try exact hc
      on_goal 1 => by_cases h5 : c.toNat = 10
      · have hc : Char.ofNat 10 = c := by rw [← h5, Char.ofNat_toNat]
        have hlen : (escapeChar c).length = 2 := by simp [escapeChar, h1, h2, h3, h4, h5]
        rw [hlen] at hf
        obtain ⟨f, rfl⟩ : ∃ f, fuel = f + 2 := ⟨fuel - 2, by omega⟩
        have ihf := ih f (by omega)
        simp [escapeChar, h1, h2, h3, h4, h5, parseStrBody, parseEscape, unescapeChar, ihf, hc]
        try exact hc
      on_goal 1 => by_cases h6 : c.toNat = 12
      · have hc : Char.ofNat 12 = c := by rw [← h6, Char.ofNat_toNat]
        have hlen : (escapeChar c).length = 2 := by simp [escapeChar, h1, h2, h3, h4, h5, h6]
        rw [hlen] at hf
        obtain ⟨f, rfl⟩ : ∃ f, fuel = f + 2 := ⟨fuel - 2, by omega⟩
        have ihf := ih f (by omega)
        simp [escapeChar, h1, h2, h3, h4, h5, h6, parseStrBody, parseEscape, unescapeChar, ihf, hc]
        try exact hc
      on_goal 1 => by_cases h7 : c.toNat = 13
      · have hc : Char.ofNat 13 = c := by rw [← h7, Char.ofNat_toNat]
        have hlen : (escapeChar c).length = 2 := by
          simp [escapeChar, h1, h2, h3, h4, h5, h6, h7]
        rw [hlen] at hf
        obtain ⟨f, rfl⟩ : ∃ f, fuel = f + 2 := ⟨fuel - 2, by omega⟩
        have ihf := ih f (by omega)
        simp [escapeChar, h1, h2, h3, h4, h5, h6, h7, parseStrBody, parseEscape, unescapeChar,
          ihf, hc]
        try exact hc
      on_goal 1 => by_cases h8 : c.toNat < 32
      · have e1 := hexVal_hexDigitChar (c.toNat / 16) (by omega)
        have e2 := hexVal_hexDigitChar (c.toNat % 16) (by omega)
        have hval : c.toNat / 16 * 16 + c.toNat % 16 = c.toNat := by omega
        have hc : Char.ofNat (c.toNat / 16 * 16 + c.toNat % 16) = c := by
          rw [hval, Char.ofNat_toNat]
        have hlen : (escapeChar c).length = 6 := by
          simp [escapeChar, h1, h2, h3, h4, h5, h6, h7, h8]
        rw [hlen] at hf
        obtain ⟨f, rfl⟩ : ∃ f, fuel = f + 3 := ⟨fuel - 3, by omega⟩
        have ihf := ih f (by omega)
        simp [escapeChar, h1, h2, h3, h4, h5, h6, h7, h8, parseStrBody, parseEscape,
          parseHexRef, hexVal_zero, e1, e2, ihf, hc]
      · have hlen : (escapeChar c).length = 1 := by
          simp [escapeChar, h1, h2, h3, h4, h5, h6, h7, h8]
        rw [hlen] at hf
        obtain ⟨f, rfl⟩ : ∃ f, fuel = f + 1 := ⟨fuel - 1, by omega⟩
        have ihf := ih f (by omega)
        simp [escapeChar, h1, h2, h3, h4, h5, h6, h7, h8, parseStrBody, ihf]

mutual
/-- Fuel adequate for parsing one serialized value. -/
def msize : Json → Nat
  | .jnull => 1
  | .jbool _ => 1
  | .jnum _ => 1
  | .jstr _ => 1
  | .jarr .nil => 1
  | .jarr (.cons h t) => max (msize h) (masize t) + 1
  | .jobj .nil => 1
  | .jobj (.cons _ v t) => max (msize v + 1) (mosize t) + 1
/-- Fuel adequate for parsing a serialized array tail. -/
def masize : JArr → Nat
  | .nil => 1
  | .cons h t => max (msize h) (masize t) + 1
/-- Fuel adequate for parsing a serialized object tail. -/
def mosize : JObj → Nat
  | .nil => 1
  | .cons _ v t => max (msize v + 1) (mosize t) + 1
end

theorem natToChars_head (n : Nat) : ∃ c cs, natToChars n = c :: cs ∧ isDigit c = true := by
  induction n using Nat.strong_induction_on with
  | _ n ih =>
      rw [natToChars_eq]
      by_cases h : n < 10
      · exact ⟨digitChar n, [], by simp [if_pos h], isDigit_digitChar n h⟩
      · obtain ⟨c, cs, heq, hd⟩ := ih (n / 10) (by omega)
        exact ⟨c, cs ++ [digitChar (n % 10)], by simp [if_neg h, heq], hd⟩

theorem digit_ne_keys (c : Char) (h : isDigit c = true) :
    c ≠ 'n' ∧ c ≠ 't' ∧ c ≠ 'f' ∧ c ≠ '"' ∧ c ≠ '[' ∧ c ≠ lbrace ∧ c ≠ '-' := by
  refine ⟨?_, ?_, ?_, ?_, ?_, ?_, ?_⟩ <;> (intro heq; subst heq; revert h; decide)

/-- A serialized JSON value can only start with these characters. -/
def goodHead (c : Char) : Prop :=
  isDigit c = true ∨ c = 'n' ∨ c = 't' ∨ c = 'f' ∨ c = '"' ∨ c = '[' ∨ c = '-' ∨ c = lbrace

theorem goodHead_ne_rbracket (c : Char) (h : goodHead c) : ¬(c = ']') := by
  intro heq
  subst heq
  rcases h with h | h | h | h | h | h | h | h <;> revert h <;> decide

theorem goodHead_ne_rbrace (c : Char) (h : goodHead c) : ¬(c = rbrace) := by
  intro heq
  subst heq
  rcases h with h | h | h | h | h | h | h | h <;> revert h <;> decide

theorem jsonStr_headOk (v : Json) (X : List Char) :
    ∃ c cs, jsonStr v ++ X = c :: cs ∧ goodHead c := by
  cases v with
  | jnull => exact ⟨'n', 'u' :: 'l' :: 'l' :: X, by simp [jsonStr], by simp [goodHead]⟩
  | jbool b =>
      cases b with
      | true => exact ⟨'t', 'r' :: 'u' :: 'e' :: X, by simp [jsonStr], by simp [goodHead]⟩
      | false => exact ⟨'f', 'a' :: 'l' :: 's' :: 'e' :: X, by simp [jsonStr], by simp [goodHead]⟩
  | jnum n =>
      by_cases hn : n < 0
      · exact ⟨'-', natToChars n.natAbs ++ X, by simp [jsonStr, intToChars, hn],
          by simp [goodHead]⟩
      · obtain ⟨c, cs, heq, hd⟩ := natToChars_head n.natAbs
        exact ⟨c, cs ++ X, by simp [jsonStr, intToChars, hn, heq], Or.inl hd⟩
  | jstr s =>
      exact ⟨'"', escapeStr s ++ '"' :: X, by simp [jsonStr, quoteStr], by simp [goodHead]⟩
  | jarr es =>
      cases es with
      | nil => exact ⟨'[', ']' :: X, by simp [jsonStr], by simp [goodHead]⟩
      | cons h t =>
          exact ⟨'[', (jsonStr h ++ arrTailStr t) ++ X, by simp [jsonStr], by simp [goodHead]⟩
  | jobj fs =>
      cases fs with
      | nil => exact ⟨lbrace, rbrace :: X, by simp [jsonStr], by simp [goodHead]⟩
      | cons k v t =>
          exact ⟨lbrace, (quoteStr k ++ ':' :: (jsonStr v ++ objTailStr t)) ++ X,
            by simp [jsonStr], by simp [goodHead]⟩

theorem restOk_arrTail (t : JArr) (rest : List Char) : restOk (arrTailStr t ++ rest) := by
  cases t with
  | nil =>
      intro c hc
      simp [arrTailStr] at hc
      subst hc
      decide
  | cons h t =>
      intro c hc
      simp [arrTailStr] at hc
      subst hc
      decide

theorem restOk_objTail (t : JObj) (rest : List Char) : restOk (objTailStr t ++ rest) := by
  cases t with
  | nil =>
      intro c hc
      simp [objTailStr] at hc
      subst hc
      decide
  | cons k v t =>
      intro c hc
      simp [objTailStr] at hc
      subst hc
      decide

@[simp] theorem lbrace_ne_n : ¬(lbrace = 'n') := by decide

@[simp] theorem lbrace_ne_t : ¬(lbrace = 't') := by decide

@[simp] theorem lbrace_ne_f : ¬(lbrace = 'f') := by decide

@[simp] theorem lbrace_ne_quote : ¬(lbrace = '"') := by decide

@[simp] theorem lbrace_ne_lbracket : ¬(lbrace = '[') := by decide

@[simp] theorem quote_ne_rbrace : ¬('"' = rbrace) := by decide

@[simp] theorem comma_ne_rbrace : ¬(',' = rbrace) := by decide

@[simp] theorem quoteStr_head (k X : List Char) : (quoteStr k ++ X).head? = some '"' := by
  simp [quoteStr]

@[simp] theorem quoteStr_head_plain (k : List Char) : (quoteStr k).head? = some '"' := by
  simp [quoteStr]

@[simp] theorem quoteStr_ne_nil (k : List Char) : quoteStr k ≠ [] := by
  simp [quoteStr]

@[simp] theorem colon_ne_rbrace : ¬(':' = rbrace) := by decide

@[simp] theorem minus_ne_lbrace : ¬('-' = lbrace) := by decide

mutual
theorem parseVal_jsonStr (v : Json) (fuel : Nat) (rest : List Char)
    (hf : msize v ≤ fuel) (hr : restOk rest) :
    parseVal fuel (jsonStr v ++ rest) = some (v, rest) := by
  cases fuel with
  | zero =>
      exfalso
      cases v with
      | jnull => simp [msize] at hf
      | jbool b => simp [msize] at hf
      | jnum n => simp [msize] at hf
      | jstr s => simp [msize] at hf
      | jarr es => cases es <;> simp [msize] at hf
      | jobj fs => cases fs <;> simp [msize] at hf
  | succ f =>
      cases v with
      | jnull => simp [jsonStr, parseVal, parseKeyword]
      | jbool b => cases b <;> simp [jsonStr, parseVal, parseKeyword]
      | jnum n =>
          by_cases hn : n < 0
          · have hd := parseDigits_natToChars n.natAbs rest hr
            have hneg : -((n.natAbs : Nat) : Int) = n := by omega
            simp [jsonStr, intToChars, hn, parseVal, hd, hneg]
            try rw [abs_of_neg hn, neg_neg]
          · obtain ⟨c, cs, heq, hdig⟩ := natToChars_head n.natAbs
            obtain ⟨k1, k2, k3, k4, k5, k6, k7⟩ := digit_ne_keys c hdig
            have heqs : jsonStr (Json.jnum n) = natToChars n.natAbs := by
              simp [jsonStr, intToChars, hn]
            have hd := parseDigits_natToChars n.natAbs rest hr
            rw [heq] at hd
            have hpos : ((n.natAbs : Nat) : Int) = n := by omega
            rw [heqs, heq]
            simp [parseVal, k1, k2, k3, k4, k5, k6, k7, hdig, hd, hpos]
            try exact ⟨n.natAbs, hd, hpos⟩
      | jstr s =>
          have hp := parseStrBody_escape s rest ((escapeStr s ++ '"' :: rest).length + 1)
            (by simp [List.length_append]; omega)
          simp only [List.length_append, List.length_cons] at hp
          simp [jsonStr, quoteStr, parseVal, hp]
      | jarr es =>
          cases es with
          | nil => simp [jsonStr, parseVal]
          | cons h t =>
              have hmax : msize h ≤ f ∧ masize t ≤ f := by
                simp only [msize] at hf
                omega
              obtain ⟨c, cs, heq, hgood⟩ := jsonStr_headOk h (arrTailStr t ++ rest)
              have hne := goodHead_ne_rbracket c hgood
              have ih1 := parseVal_jsonStr h f (arrTailStr t ++ rest) hmax.1 (restOk_arrTail t rest)
              have ih2 := parseArrTail_arrTailStr t f rest hmax.2 hr
              rw [heq] at ih1
              simp [jsonStr, parseVal, heq, hne, ih1, ih2]
      | jobj fs =>
          cases fs with
          | nil => simp [jsonStr, parseVal]
          | cons k v t =>
              have hmax : msize v + 1 ≤ f ∧ mosize t ≤ f := by
                simp only [msize] at hf
                omega
              have ih1 := parseMember_spec k v f (objTailStr t ++ rest) hmax.1 (restOk_objTail t rest)
              have ih2 := parseObjTail_objTailStr t f rest hmax.2 hr
              simp [jsonStr, parseVal, ih1, ih2]
termination_by 2 * sizeOf v
decreasing_by all_goals (subst_vars; try simp; try omega)

theorem parseMember_spec (k : List Char) (v : Json) (fuel : Nat) (rest : List Char)
    (hf : msize v + 1 ≤ fuel) (hr : restOk rest) :
    parseMember fuel (quoteStr k ++ ':' :: (jsonStr v ++ rest)) = some ((k, v), rest) := by
  cases fuel with
  | zero => omega
  | succ f =>
      have hp := parseStrBody_escape k (':' :: (jsonStr v ++ rest))
        ((escapeStr k ++ '"' :: ':' :: (jsonStr v ++ rest)).length + 1)
        (by simp [List.length_append]; omega)
      simp only [List.length_append, List.length_cons] at hp
      have ih := parseVal_jsonStr v f rest (by omega) hr
      simp [quoteStr, parseMember, hp, ih]
termination_by 2 * sizeOf v + 1
decreasing_by all_goals (subst_vars; try simp; try omega)

theorem parseArrTail_arrTailStr (t : JArr) (fuel : Nat) (rest : List Char)
    (hf : masize t ≤ fuel) (hr : restOk rest) :
    parseArrTail fuel (arrTailStr t ++ rest) = some (t, rest) := by
  cases fuel with
  | zero =>
      exfalso
      cases t <;> simp [masize] at hf
  | succ f =>
      cases t with
      | nil => simp [arrTailStr, parseArrTail]
      | cons h t =>
          have hm : msize h ≤ f ∧ masize t ≤ f := by
            simp only [masize] at hf
            omega
          have ih1 := parseVal_jsonStr h f (arrTailStr t ++ rest) hm.1 (restOk_arrTail t rest)
          have ih2 := parseArrTail_arrTailStr t f rest hm.2 hr
          simp [arrTailStr, parseArrTail, ih1, ih2]
termination_by 2 * sizeOf t
decreasing_by all_goals (subst_vars; try simp; try omega)

theorem parseObjTail_objTailStr (t : JObj) (fuel : Nat) (rest : List Char)
    (hf : mosize t ≤ fuel) (hr : restOk rest) :
    parseObjTail fuel (objTailStr t ++ rest) = some (t, rest) := by
  cases fuel with
  | zero =>
      exfalso
      cases t <;> simp [mosize] at hf
  | succ f =>
      cases t with
      | nil => simp [objTailStr, parseObjTail]
      | cons k v t =>
          have hm : msize v + 1 ≤ f ∧ mosize t ≤ f := by
            simp only [mosize] at hf
            omega
          have ih1 := parseMember_spec k v f (objTailStr t ++ rest) hm.1 (restOk_objTail t rest)
          have ih2 := parseObjTail_objTailStr t f rest hm.2 hr
          simp [objTailStr, parseObjTail, ih1, ih2]
termination_by 2 * sizeOf t
decreasing_by all_goals (subst_vars; try simp; try omega)
end

theorem quoteStr_length (k : List Char) : (quoteStr k).length = (escapeStr k).length + 2 := by
  simp [quoteStr]

mutual
theorem msize_le_length (v : Json) : msize v ≤ (jsonStr v).length + 1 := by
  cases v with
  | jnull => simp [msize, jsonStr]
  | jbool b => cases b <;> simp [msize, jsonStr]
  | jnum n => simp [msize, jsonStr]
  | jstr s => simp [msize, jsonStr]
  | jarr es =>
      cases es with
      | nil => simp [msize, jsonStr]
      | cons h t =>
          have h1 := msize_le_length h
          have h2 := masize_le_length t
          have h3 : 1 ≤ (arrTailStr t).length := by
            cases t <;> simp [arrTailStr]
          simp only [msize, jsonStr, List.length_cons, List.length_append]
          omega
  | jobj fs =>
      cases fs with
      | nil => simp [msize, jsonStr]
      | cons k v t =>
          have h1 := msize_le_length v
          have h2 := mosize_le_length t
          have h3 := quoteStr_length k
          have h4 : 1 ≤ (objTailStr t).length := by
            cases t <;> simp [objTailStr]
          simp only [msize, jsonStr, List.length_cons, List.length_append]
          omega
termination_by 2 * sizeOf v
decreasing_by all_goals (subst_vars; try simp; try omega)

theorem masize_le_length (t : JArr) : masize t ≤ (arrTailStr t).length := by
  cases t with
  | nil => simp [masize, arrTailStr]
  | cons h t =>
      have h1 := msize_le_length h
      have h2 := masize_le_length t
      have h3 : 1 ≤ (arrTailStr t).length := by
        cases t <;> simp [arrTailStr]
      simp only [masize, arrTailStr, List.length_cons, List.length_append]
      omega
termination_by 2 * sizeOf t
decreasing_by all_goals (subst_vars; try simp; try omega)

theorem mosize_le_length (t : JObj) : mosize t ≤ (objTailStr t).length := by
  cases t with
  | nil => simp [mosize, objTailStr]
  | cons k v t =>
      have h1 := msize_le_length v
      have h2 := mosize_le_length t
      have h3 := quoteStr_length k
      have h4 : 1 ≤ (objTailStr t).length := by
        cases t <;> simp [objTailStr]
      simp only [mosize, objTailStr, List.length_cons, List.length_append]
      omega
termination_by 2 * sizeOf t
decreasing_by all_goals (subst_vars; try simp; try omega)
end

/-- `JSON.parse` inverts `JSON.stringify`. -/
theorem parseJson_jsonStr (v : Json) : parseJson (jsonStr v) = some v := by
  have hle : msize v ≤ (jsonStr v).length + 1 := msize_le_length v
  have h := parseVal_jsonStr v ((jsonStr v).length + 1) [] hle restOk_nil
  rw [List.append_nil] at h
  simp [parseJson, h]

/-! ## crypto.ts: `deriveKey`, `encryptJSON`, `decryptJSON` -/

/-- The envelope `encryptJSON` returns: `{version: 1, iv: base64, cipher: base64}`. -/
structure Envelope where
  version : Nat
  iv : List Char
  cipher : List Char
deriving DecidableEq

/-- `deriveKey(password, saltB64, iterations = 200000)`: PBKDF2-HMAC-SHA256 over
the decoded salt. A salt that is not valid base64 makes `fromBase64` throw. -/
def deriveKey (password saltB64 : List Char) (iterations : Nat := 200000) : Option CKey :=
  (b64decode saltB64).map fun salt => CKey.pbkdf2 password salt iterations

/-- `encryptJSON(key, payload)`, with the IV drawn by `genIV()` passed
explicitly (the RNG is an input of the model). -/
def encryptJSON (key : CKey) (iv : List Nat) (payload : Json) : Envelope :=
  { version := 1
    iv := b64encode iv
    cipher := b64encode (encBytes key iv (utf8Enc (jsonStr payload))) }

/-- `decryptJSON(key, encrypted)` on the envelope's `iv`/`cipher` fields: decode
base64, AES-GCM-decrypt, `JSON.parse`; every failure throws (`none`). -/
def decryptJSON (key : CKey) (ivB64 cipherB64 : List Char) : Option Json :=
  (b64decode ivB64).bind fun iv =>
    (b64decode cipherB64).bind fun ct =>
      (decBytes key iv ct).bind fun pt => parseJson (utf8Dec pt)

/-- `decryptJSON` applied to a structured envelope. -/
def decryptJSONEnv (key : CKey) (e : Envelope) : Option Json :=
  decryptJSON key e.iv e.cipher

/-! ## security.ts: `AuthenticationRateLimiter` -/

/-- Association-list lookup (first match). -/
def assocGet {α : Type} : List (List Char × α) → List Char → Option α
  | [], _ => none
  | (k', v) :: rest, k => if k' = k then some v else assocGet rest k

/-- Association-list upsert: replace in place, else append (JS `Map.set`). -/
def assocPut {α : Type} : List (List Char × α) → List Char → α → List (List Char × α)
  | [], k, v => [(k, v)]
  | (k', v') :: rest, k, v => if k' = k then (k, v) :: rest else (k', v') :: assocPut rest k v

/-- Association-list removal (JS `Map.delete`; keys are unique in a `Map`). -/
def assocDelete {α : Type} (rows : List (List Char × α)) (k : List Char) :
    List (List Char × α) :=
  rows.filter fun p => decide (¬ p.1 = k)

theorem assocGet_assocPut {α : Type} (m : List (List Char × α)) (k : List Char) (v : α) :
    assocGet (assocPut m k v) k = some v := by
  induction m with
  | nil => simp [assocGet, assocPut]
  | cons p rest ih =>
      by_cases h : p.1 = k
      · simp [assocGet, assocPut, h]
      · simp [assocGet, assocPut, h, ih]

theorem assocPut_assocPut {α : Type} (m : List (List Char × α)) (k : List Char) (v v' : α) :
    assocPut (assocPut m k v) k v' = assocPut m k v' := by
  induction m with
  | nil => simp [assocPut]
  | cons p rest ih =>
      by_cases h : p.1 = k
      · simp [assocPut, h]
      · simp [assocPut, h, ih]

theorem assocGet_assocDelete {α : Type} (m : List (List Char × α)) (k : List Char) :
    assocGet (assocDelete m k) k = none := by
  induction m with
  | nil => simp [assocGet, assocDelete]
  | cons p rest ih =>
      by_cases h : p.1 = k
      · simpa [assocDelete, h] using ih
      · simpa [assocDelete, assocGet, h] using ih

/-- `count`, `lastAttempt`, `lockoutUntil` (milliseconds as naturals). -/
structure RateLimitRecord where
  count : Nat
  lastAttempt : Nat
  lockoutUntil : Nat
deriving DecidableEq

/-- The limiter's `records` map. -/
abbrev RLMap := List (List Char × RateLimitRecord)

/-- `ATTEMPTS_30S = 5`. -/
def ATTEMPTS_30S : Nat := 5
/-- `ATTEMPTS_5MIN = 10`. -/
def ATTEMPTS_5MIN : Nat := 10
/-- `LOCKOUT_30S = 30 * 1000`. -/
def LOCKOUT_30S : Nat := 30000
/-- `LOCKOUT_5MIN = 5 * 60 * 1000`. -/
def LOCKOUT_5MIN : Nat := 300000

/-- `navigator.userAgent.slice(0, 50)`: environment-dependent, fixed in the model. -/
def uaSlice : List Char := "Mozilla/5.0".data

/-- Six-digit zero-padded decimal, as `Date.now().toString().slice(-6)` yields
for realistic clock values. -/
def pad6 (n : Nat) : List Char :=
  [digitChar (n / 100000 % 10), digitChar (n / 10000 % 10), digitChar (n / 1000 % 10),
   digitChar (n / 100 % 10), digitChar (n / 10 % 10), digitChar (n % 10)]

/-- `getClientIdentifier()`: the user-agent slice plus `'-'` plus the last six
digits of the current time in milliseconds. -/
def getClientIdentifier (now : Nat) : List Char :=
  uaSlice ++ '-' :: pad6 (now % 1000000)

/-- `identifier || this.getClientIdentifier()`: JS `||` falls back on the empty
string as well. -/
def resolveClientId (idOpt : Option (List Char)) (now : Nat) : List Char :=
  match idOpt with
  | some s => if s = [] then getClientIdentifier now else s
  | none => getClientIdentifier now

/-- Result of `checkLimit`. -/
structure LimitCheck where
  allowed : Bool
  waitTime : Option Nat
deriving DecidableEq

/-- `checkLimit(identifier?)` at time `now`; also returns the updated map (the
method inserts a fresh record and decays the counter in place). -/
def checkLimit (m : RLMap) (idOpt : Option (List Char)) (now : Nat) : LimitCheck × RLMap :=
  let clientId := resolveClientId idOpt now
  let record := (assocGet m clientId).getD ⟨0, 0, 0⟩
  if now < record.lockoutUntil then
    (⟨false, some (record.lockoutUntil - now)⟩, assocPut m clientId record)
  else
    let record2 :=
      if now - record.lastAttempt > LOCKOUT_30S then
        { record with count := record.count - 1 }
      else record
    (⟨true, none⟩, assocPut m clientId record2)

/-- `recordFailedAttempt(identifier?)` at time `now`. -/
def recordFailedAttempt (m : RLMap) (idOpt : Option (List Char)) (now : Nat) : RLMap :=
  let clientId := resolveClientId idOpt now
  let record := (assocGet m clientId).getD ⟨0, 0, 0⟩
  let count2 := record.count + 1
  let lockout2 :=
    if count2 ≥ ATTEMPTS_5MIN then now + LOCKOUT_5MIN
    else if count2 ≥ ATTEMPTS_30S then now + LOCKOUT_30S
    else record.lockoutUntil
  assocPut m clientId ⟨count2, now, lockout2⟩

/-- `recordSuccessfulAttempt(identifier?)` at time `now`: delete the record. -/
def recordSuccessfulAttempt (m : RLMap) (idOpt : Option (List Char)) (now : Nat) : RLMap :=
  assocDelete m (resolveClientId idOpt now)

/-- A sequence of failed attempts against one explicit identity. -/
def failN (m : RLMap) (ident : List Char) (ts : List Nat) : RLMap :=
  ts.foldl (fun acc t => recordFailedAttempt acc (some ident) t) m

/-! ## VaultContext.tsx: vault state, `unlock`, `addEntry`, `updateEntry`, `deleteEntry`

Vault records are dynamic JSON objects in the source; the in-memory `entries`
collection is therefore a list of `Json` values here. -/

/-- Property access `j[k]` on a JSON object (`undefined` otherwise). -/
def jObjGet : JObj → List Char → Option Json
  | .nil, _ => none
  | .cons k' v rest, k => if k' = k then some v else jObjGet rest k

/-- Property access on any JSON value. -/
def jGet : Json → List Char → Option Json
  | .jobj fs, k => jObjGet fs k
  | _, _ => none

/-- Property access yielding a string (anything else compares unequal to a
string under `===`). -/
def jGetStr (j : Json) (k : List Char) : Option (List Char) :=
  match jGet j k with
  | some (.jstr s) => some s
  | _ => none

/-- JavaScript truthiness of a JSON value. -/
def jsTruthy : Json → Bool
  | .jnull => false
  | .jbool b => b
  | .jnum n => decide (n ≠ 0)
  | .jstr s => decide (s ≠ [])
  | .jarr _ => true
  | .jobj _ => true

/-- Field list to JSON object fields. -/
def jobjOf : List (List Char × Json) → JObj
  | [] => .nil
  | (k, v) :: rest => .cons k v (jobjOf rest)

/-- Array element list to JSON array. -/
def jarrOf : List Json → JArr
  | [] => .nil
  | v :: rest => .cons v (jarrOf rest)

/-- Object spread `{...base, ...extra}`: `extra` overrides values in place,
new keys are appended in order. -/
def spreadFields (base extra : List (List Char × Json)) : List (List Char × Json) :=
  (base.map fun p =>
    match assocGet extra p.1 with
    | some v => (p.1, v)
    | none => p) ++
  extra.filter fun q => (assocGet base q.1).isNone

/-- The persisted Dexie database: `entries` rows `{id, encrypted}` keyed by
`id`, and `meta` rows `{key, value}`. -/
structure Db where
  entries : List (List Char × List Char)
  meta : List (List Char × List Char)
deriving DecidableEq

/-- In-memory React state of `VaultProvider`. -/
structure VaultState where
  unlocked : Bool
  key : Option CKey
  entries : List Json

/-- Result of `unlock`. -/
structure UnlockResult where
  success : Bool
  rateLimitWait : Option Nat
deriving DecidableEq

/-- The envelope as persisted: `JSON.stringify({version, iv, cipher})`. -/
def envJson (e : Envelope) : Json :=
  .jobj (jobjOf [("version".data, .jnum (e.version : Int)), ("iv".data, .jstr e.iv),
    ("cipher".data, .jstr e.cipher)])

/-- The unlock loop: `JSON.parse` each row's `encrypted` text, then
`decryptJSON` it; the first failure aborts the whole loop (`none`). -/
def decodeEntries (k : CKey) : List (List Char × List Char) → Option (List Json)
  | [] => some []
  | (_, enc) :: rest =>
      (parseJson enc).bind fun envJ =>
        (jGetStr envJ "iv".data).bind fun ivB64 =>
          (jGetStr envJ "cipher".data).bind fun ctB64 =>
            (decryptJSON k ivB64 ctB64).bind fun e =>
              (decodeEntries k rest).map fun es => e :: es

/-- `unlock(password)` at time `now`: rate-limit gate, salt fetch, key
derivation, decrypt-all; state is only replaced after every envelope
decrypts. The salt-missing path records a failed attempt and then throws,
which the catch handler records again. -/
def unlock (pw : List Char) (now : Nat) (db : Db) (rl : RLMap) (vs : VaultState) :
    UnlockResult × RLMap × VaultState :=
  let c := checkLimit rl none now
  if c.1.allowed = false then
    ({ success := false, rateLimitWait := c.1.waitTime }, c.2, vs)
  else
    match assocGet db.meta "salt".data with
    | none =>
        let rl2 := recordFailedAttempt c.2 none now
        ({ success := false, rateLimitWait := none }, recordFailedAttempt rl2 none now, vs)
    | some salt =>
        match deriveKey pw salt with
        | none => ({ success := false, rateLimitWait := none }, recordFailedAttempt c.2 none now, vs)
        | some k =>
            match decodeEntries k db.entries with
            | none =>
                ({ success := false, rateLimitWait := none }, recordFailedAttempt c.2 none now, vs)
            | some es =>
                ({ success := true, rateLimitWait := none },
                 recordSuccessfulAttempt c.2 none now,
                 { unlocked := true, key := some k, entries := es })

/-- `addEntry(payload)`: rejects when locked; otherwise builds
`{id, createdAt, ...payload}` (the `Omit` type keeps `id`/`createdAt` out of
`payload`), encrypts, persists, then prepends to the in-memory list. The
fresh UUID, timestamp and IV are inputs of the model. -/
def addEntry (vs : VaultState) (db : Db) (payload : List (List Char × Json))
    (uuid nowIso : List Char) (iv : List Nat) : Except (List Char) (VaultState × Db) :=
  match vs.key with
  | none => .error "Vault is locked".data
  | some k =>
      let entry : Json := .jobj (jobjOf (spreadFields
        [("id".data, .jstr uuid), ("createdAt".data, .jstr nowIso)] payload))
      let env := encryptJSON k iv entry
      .ok ({ vs with entries := entry :: vs.entries },
           { db with entries := assocPut db.entries uuid (jsonStr (envJson env)) })

/-- `updateEntry(id, payload)`: rejects when locked; `createdAt` is the found
entry's (falsy values replaced by the current time, via `||`), else the
current time; persists under `id` and maps the in-memory list. -/
def updateEntry (vs : VaultState) (db : Db) (id : List Char)
    (payload : List (List Char × Json)) (nowIso : List Char) (iv : List Nat) :
    Except (List Char) (VaultState × Db) :=
  match vs.key with
  | none => .error "Vault is locked".data
  | some k =>
      let found := vs.entries.find? fun e => decide (jGetStr e "id".data = some id)
      let createdAt : Json :=
        match found.bind fun e => jGet e "createdAt".data with
        | some v => if jsTruthy v then v else .jstr nowIso
        | none => .jstr nowIso
      let entry : Json := .jobj (jobjOf (spreadFields
        [("id".data, .jstr id), ("createdAt".data, createdAt), ("updatedAt".data, .jstr nowIso)]
        payload))
      let env := encryptJSON k iv entry
      .ok ({ vs with entries := vs.entries.map fun e =>
               if jGetStr e "id".data = some id then entry else e },
           { db with entries := assocPut db.entries id (jsonStr (envJson env)) })

/-- `deleteEntry(id)`: no locked-state check; deletes the persisted row and
filters the in-memory list. -/
def deleteEntry (vs : VaultState) (db : Db) (id : List Char) : VaultState × Db :=
  ({ vs with entries := vs.entries.filter fun e => decide (¬ jGetStr e "id".data = some id) },
   { db with entries := assocDelete db.entries id })

/-! ## backup.ts (checksummed variant): `exportVaultBackup` / `importVaultBackup` -/

/-- JSON array to list. -/
def jarrToList : JArr → List Json
  | .nil => []
  | .cons v rest => v :: jarrToList rest

/-- The fixed signature marker `LYNQAR_VAULT_BACKUP_V1`. -/
def backupMarker : List Char := "LYNQAR_VAULT_BACKUP_V1".data

/-- The backup checksum: HMAC-SHA256 under the backup-checksum key over the
serialized body, base64-encoded. -/
def checksumOf (pw dataString : List Char) : List Char :=
  b64encode (hmacBytes (CKey.hkdfHmac pw) (utf8Enc dataString))

/-- Field list of the `BackupData` body `{version, createdAt, salt, entries,
metadata}` in construction order. -/
def backupDataFields (salt createdAt fp : List Char)
    (entries : List (List Char × List Char)) : List (List Char × Json) :=
  [("version".data, .jnum 1),
   ("createdAt".data, .jstr createdAt),
   ("salt".data, .jstr salt),
   ("entries".data, .jarr (jarrOf (entries.map fun p =>
      .jobj (jobjOf [("id".data, .jstr p.1), ("encrypted".data, .jstr p.2)])))),
   ("metadata".data, .jobj (jobjOf
      [("totalEntries".data, .jnum (entries.length : Int)),
       ("browserFingerprint".data, .jstr fp)]))]

/-- `exportVaultBackup(masterPassword)`: reads salt and rows, builds the signed
and checksummed `BackupFile`, encrypts it under the backup key with a fresh
IV — and then base64-encodes `encryptedBackup` alone. The `combined`
IV-plus-ciphertext buffer is assembled exactly as in the source and, exactly
as in the source, never used. Timestamp, fingerprint and IV are model inputs. -/
def exportVaultBackup (pw createdAt fp : List Char) (iv : List Nat) (db : Db) :
    Except (List Char) (List Char) :=
  match assocGet db.meta "salt".data with
  | none => .error "Failed to create vault backup".data
  | some salt =>
      let fields := backupDataFields salt createdAt fp db.entries
      let dataString := jsonStr (.jobj (jobjOf fields))
      let checksum := checksumOf pw dataString
      let keyFp := b64encode (hmacBytes (CKey.hkdfHmac pw) (utf8Enc "key-verification".data))
      let finalBackup : Json := .jobj (jobjOf (fields ++
        [("signature".data, .jstr backupMarker), ("checksum".data, .jstr checksum),
         ("keyFingerprint".data, .jstr keyFp)]))
      let encryptedBackup := encBytes (CKey.hkdfEnc pw) iv (utf8Enc (jsonStr finalBackup))
      let _combined := iv ++ encryptedBackup
      .ok (b64encode encryptedBackup)

inductive ImportMode where
  | overwrite
  | merge
deriving DecidableEq

/-- Failures raised inside the inner `try` of `importVaultBackup`. -/
inductive InnerErr where
  | decryptFailed
  | badSignature
  | integrityFailed
  | badStructure
deriving DecidableEq

/-- Failures surfaced by `importVaultBackup`: the outer `atob` error, or the
generic `Backup file is not compatible or corrupted` that the inner catch
substitutes for every inner failure. -/
inductive BackupErr where
  | badBase64
  | incompatible
deriving DecidableEq

/-- A field of the rebuilt `backupData`; a property missing from the parsed
backup is `undefined` and dropped by `JSON.stringify`. -/
def optField (k : List Char) (v : Option Json) : List (List Char × Json) :=
  match v with
  | some j => [(k, j)]
  | none => []

/-- `{version: backup.version, createdAt: ..., salt: ..., entries: ...,
metadata: ...}` as re-serialized for the checksum comparison. -/
def rebuiltBackupData (backup : Json) : Json :=
  .jobj (jobjOf
    (optField "version".data (jGet backup "version".data) ++
     optField "createdAt".data (jGet backup "createdAt".data) ++
     optField "salt".data (jGet backup "salt".data) ++
     optField "entries".data (jGet backup "entries".data) ++
     optField "metadata".data (jGet backup "metadata".data)))

/-- A backup entry's `id` and `encrypted` strings; anything else makes the
per-entry `put` throw, which the loop catches and skips. -/
def entryFields (e : Json) : Option (List Char × List Char) :=
  match jGetStr e "id".data, jGetStr e "encrypted".data with
  | some i, some enc => some (i, enc)
  | _, _ => none

/-- The per-entry import loop. `pf` says which row writes fail; failures are
caught and skipped. Returns merge-mode `importedCount` and the updated rows. -/
def importLoop (mode : ImportMode) (pf : List Char → Bool) :
    List Json → List (List Char × List Char) → Nat → Nat × List (List Char × List Char)
  | [], rows, cnt => (cnt, rows)
  | e :: rest, rows, cnt =>
      match entryFields e with
      | none => importLoop mode pf rest rows cnt
      | some (i, enc) =>
          match mode with
          | .overwrite =>
              if pf i then importLoop mode pf rest rows cnt
              else importLoop mode pf rest (assocPut rows i enc) cnt
          | .merge =>
              match assocGet rows i with
              | some _ => importLoop mode pf rest rows cnt
              | none =>
                  if pf i then importLoop mode pf rest rows cnt
                  else importLoop mode pf rest (assocPut rows i enc) (cnt + 1)

/-- The inner `try` body of `importVaultBackup`, after base64 decoding: slice
the first 12 bytes as IV, decrypt, parse, check signature, recompute and
compare the checksum, validate the entry array, then (overwrite only) clear
both tables and write the backup salt, and finally run the entry loop. -/
def importInner (bs : List Nat) (pw : List Char) (mode : ImportMode) (db : Db)
    (pf : List Char → Bool) : Except InnerErr ((Nat × Nat) × Db) :=
  match decBytes (CKey.hkdfEnc pw) (bs.take 12) (bs.drop 12) with
  | none => .error .decryptFailed
  | some pt =>
      match parseJson (utf8Dec pt) with
      | none => .error .decryptFailed
      | some backup =>
          if jGetStr backup "signature".data ≠ some backupMarker then .error .badSignature
          else
            let computed := checksumOf pw (jsonStr (rebuiltBackupData backup))
            if jGetStr backup "checksum".data ≠ some computed then .error .integrityFailed
            else
              match jGet backup "entries".data with
              | some (.jarr es) =>
                  let db1 : Db :=
                    match mode with
                    | .overwrite =>
                        { entries := [],
                          meta := [("salt".data, (jGetStr backup "salt".data).getD [])] }
                    | .merge => db
                  let r := importLoop mode pf (jarrToList es) db1.entries 0
                  .ok (((jarrToList es).length,
                        match mode with
                        | .overwrite => (jarrToList es).length
                        | .merge => r.1),
                       { db1 with entries := r.2 })
              | _ => .error .badStructure

/-- `importVaultBackup(backupData, masterPassword, mode)`: decode base64 (an
`atob` failure propagates), run the inner pipeline, and replace any inner
failure with the generic incompatibility error. The store is returned
alongside; every error is thrown before the first write. -/
def importVaultBackup (blob pw : List Char) (mode : ImportMode) (db : Db)
    (pf : List Char → Bool) : Except BackupErr (Nat × Nat) × Db :=
  match b64decode blob with
  | none => (.error .badBase64, db)
  | some bs =>
      match importInner bs pw mode db pf with
      | .error _ => (.error .incompatible, db)
      | .ok (res, db') => (.ok res, db')

/-! ## totp.ts / webauthn.ts: TOTP secret validation -/

/-- One character of the class `[A-Z2-7]` under the `i` flag. -/
def isB32Char (c : Char) : Bool :=
  decide (('A' ≤ c ∧ c ≤ 'Z') ∨ ('a' ≤ c ∧ c ≤ 'z') ∨ ('2' ≤ c ∧ c ≤ '7'))

/-- `/^[A-Z2-7]+=*$/i.test(s)`: a nonempty base32 run followed only by `=`. -/
def base32Test (s : List Char) : Bool :=
  decide (s.takeWhile isB32Char ≠ []) && (s.dropWhile isB32Char).all fun c => decide (c = '=')

/-- totp.ts `isValidTOTPSecret`: base32 shape and length at least 16. -/
def isValidTOTPSecret (s : List Char) : Bool :=
  base32Test s && decide (16 ≤ s.length)

/-- webauthn.ts `Validators.isValidTOTPSecret`: additionally at most 100. -/
def validatorsIsValidTOTPSecret (s : List Char) : Bool :=
  base32Test s && decide (16 ≤ s.length) && decide (s.length ≤ 100)

/-! ## Claim theorems -/

/-- C6: Record cipher round-trip — for every derived AES-256-GCM key, every
fresh IV and every JSON-serializable record `r`,
`decryptJSON(key, encryptJSON(key, r))` returns a value equal to `r`. -/
theorem C6_record_cipher_roundtrip (key : CKey) (iv : List Nat) (payload : Json)
    (hiv : ∀ b ∈ iv, b < 256) :
    decryptJSONEnv key (encryptJSON key iv payload) = some payload := by
  have h1 := b64decode_b64encode iv hiv
  have h2 := b64decode_b64encode (encBytes key iv (utf8Enc (jsonStr payload)))
    (encBytes_lt _ _ _)
  simp [decryptJSONEnv, decryptJSON, encryptJSON, h1, h2, decBytes_encBytes,
    utf8Dec_utf8Enc, parseJson_jsonStr]

/-- Witness for C6 at a concrete key, IV and record. -/
theorem C6_record_cipher_roundtrip_witness :
    decryptJSONEnv (CKey.pbkdf2 "pw".data [7, 7] 200000)
      (encryptJSON (CKey.pbkdf2 "pw".data [7, 7] 200000) [0, 1, 2, 3, 4, 5, 6, 7, 8, 9, 10, 11]
        (.jobj (jobjOf [("title".data, .jstr "a".data)]))) =
      some (.jobj (jobjOf [("title".data, .jstr "a".data)])) :=
  C6_record_cipher_roundtrip _ _ _ (by decide)

/-- C3: Unlock is all-or-nothing — once the rate-limit gate passes and the key
is derived, either every persisted envelope decrypts and exactly those decoded
entries are exposed with the key retained, or a single failure makes the whole
unlock fail with the in-memory state unchanged. -/
theorem C3_unlock_all_or_nothing (pw : List Char) (now : Nat) (db : Db) (rl : RLMap)
    (vs : VaultState) (salt : List Char) (k : CKey)
    (hallow : (checkLimit rl none now).1.allowed = true)
    (hsalt : assocGet db.meta "salt".data = some salt)
    (hkey : deriveKey pw salt = some k) :
    (∀ es, decodeEntries k db.entries = some es →
      (unlock pw now db rl vs).1.success = true ∧
      (unlock pw now db rl vs).2.2 = ⟨true, some k, es⟩) ∧
    (decodeEntries k db.entries = none →
      (unlock pw now db rl vs).1.success = false ∧
      (unlock pw now db rl vs).2.2 = vs) := by
  constructor
  · intro es hdec
    constructor <;> simp [unlock, hallow, hsalt, hkey, hdec]
  · intro hdec
    constructor <;> simp [unlock, hallow, hsalt, hkey, hdec]

/-- The key the C3 witness vault is created with. -/
def c3Key : CKey := CKey.pbkdf2 "p".data [1, 2] 200000

/-- The single record in the C3 witness vault. -/
def c3Entry : Json := .jobj (jobjOf [("id".data, .jstr "e1".data)])

/-- The persisted store of the C3 witness vault. -/
def c3Db : Db :=
  { entries := [("e1".data,
      jsonStr (envJson (encryptJSON c3Key [0, 1, 2, 3, 4, 5, 6, 7, 8, 9, 10, 11] c3Entry)))],
    meta := [("salt".data, b64encode [1, 2])] }

/-- Witness for C3: a one-entry vault unlocks with the right password and
exposes exactly the decoded entry. -/
theorem C3_unlock_all_or_nothing_witness :
    (unlock "p".data 0 c3Db [] ⟨false, none, []⟩).1.success = true ∧
    (unlock "p".data 0 c3Db [] ⟨false, none, []⟩).2.2 = ⟨true, some c3Key, [c3Entry]⟩ :=
  (C3_unlock_all_or_nothing "p".data 0 c3Db [] ⟨false, none, []⟩ (b64encode [1, 2]) c3Key
    rfl rfl rfl).1 [c3Entry] (by rfl)

theorem map_no_match (l : List Json) (id : List Char) (x : Json)
    (h : ∀ e ∈ l, ¬(jGetStr e "id".data = some id)) :
    (l.map fun e => if jGetStr e "id".data = some id then x else e) = l := by
  induction l with
  | nil => simp
  | cons e l ih =>
      have he := h e (by simp)
      simp [he, ih fun e' he' => h e' (by simp [he'])]

/-- C9: `deleteEntry` has no locked-state precondition — in every state,
including Locked, it removes the row with the given id from the persisted
store and every matching entry from the in-memory list, while `addEntry` and
`updateEntry` reject with `Vault is locked` whenever no key is held. -/
theorem C9_deleteEntry_no_lock_precondition (vs : VaultState) (db : Db) (id : List Char)
    (payload : List (List Char × Json)) (uuid nowIso : List Char) (iv : List Nat) :
    (assocGet (deleteEntry vs db id).2.entries id = none ∧
      ∀ e ∈ (deleteEntry vs db id).1.entries, ¬(jGetStr e "id".data = some id)) ∧
    (vs.key = none →
      addEntry vs db payload uuid nowIso iv = .error "Vault is locked".data ∧
      updateEntry vs db id payload nowIso iv = .error "Vault is locked".data) := by
  refine ⟨⟨?_, ?_⟩, fun hk => ?_⟩
  · simp only [deleteEntry]
    exact assocGet_assocDelete db.entries id
  · intro e he
    simp only [deleteEntry] at he
    have h2 := List.of_mem_filter he
    simpa using h2
  · constructor
    · simp [addEntry, hk]
    · simp [updateEntry, hk]

/-- Witness for C9: in a locked state both mutating operations are rejected
while `deleteEntry` goes through. -/
theorem C9_deleteEntry_no_lock_precondition_witness :
    (assocGet (deleteEntry ⟨false, none, []⟩ ⟨[("x".data, "E".data)], []⟩ "x".data).2.entries
        "x".data = none ∧
      ∀ e ∈ (deleteEntry (⟨false, none, []⟩ : VaultState) ⟨[("x".data, "E".data)], []⟩
          "x".data).1.entries, ¬(jGetStr e "id".data = some "x".data)) ∧
    ((⟨false, none, []⟩ : VaultState).key = none →
      addEntry ⟨false, none, []⟩ ⟨[("x".data, "E".data)], []⟩ [] "u".data "t".data [] =
        .error "Vault is locked".data ∧
      updateEntry ⟨false, none, []⟩ ⟨[("x".data, "E".data)], []⟩ "x".data [] "t".data [] =
        .error "Vault is locked".data) :=
  C9_deleteEntry_no_lock_precondition ⟨false, none, []⟩ ⟨[("x".data, "E".data)], []⟩
    "x".data [] "u".data "t".data []

/-- C10: `updateEntry` on an id that matches no in-memory entry still encrypts
and persists an envelope under that id, with `createdAt` set to the current
time, while the in-memory list is left unchanged — the persisted store gains
a record the in-memory view does not show. -/
theorem C10_updateEntry_missing_id (vs : VaultState) (db : Db) (k : CKey) (id : List Char)
    (payload : List (List Char × Json)) (nowIso : List Char) (iv : List Nat)
    (hk : vs.key = some k)
    (hmiss : ∀ e ∈ vs.entries, ¬(jGetStr e "id".data = some id)) :
    ∃ db', updateEntry vs db id payload nowIso iv = .ok (vs, db') ∧
      assocGet db'.entries id = some (jsonStr (envJson (encryptJSON k iv
        (.jobj (jobjOf (spreadFields
          [("id".data, .jstr id), ("createdAt".data, .jstr nowIso),
           ("updatedAt".data, .jstr nowIso)] payload)))))) := by
  obtain ⟨u, kk, es⟩ := vs
  obtain rfl : kk = some k := hk
  have hfind : List.find? (fun e => decide (jGetStr e "id".data = some id)) es = none := by
    rw [List.find?_eq_none]
    intro e he
    simpa using hmiss e he
  refine ⟨{ db with entries := assocPut db.entries id (jsonStr (envJson (encryptJSON k iv
      (.jobj (jobjOf (spreadFields
        [("id".data, .jstr id), ("createdAt".data, .jstr nowIso),
         ("updatedAt".data, .jstr nowIso)] payload)))))) }, ?_, ?_⟩
  · simp only [updateEntry, hfind, Option.bind]
    rw [map_no_match _ _ _ hmiss]
  · exact assocGet_assocPut _ _ _

/-- Witness for C10 in an unlocked vault whose in-memory list lacks the id. -/
theorem C10_updateEntry_missing_id_witness :
    ∃ db', updateEntry ⟨true, some (CKey.hkdfEnc "q".data), []⟩ ⟨[], []⟩ "x".data
        [("title".data, .jstr "a".data)] "t".data [3, 3] = .ok (⟨true, some (CKey.hkdfEnc "q".data), []⟩, db') ∧
      assocGet db'.entries "x".data = some (jsonStr (envJson (encryptJSON (CKey.hkdfEnc "q".data) [3, 3]
        (.jobj (jobjOf (spreadFields
          [("id".data, .jstr "x".data), ("createdAt".data, .jstr "t".data),
           ("updatedAt".data, .jstr "t".data)] [("title".data, .jstr "a".data)])))))) :=
  C10_updateEntry_missing_id ⟨true, some (CKey.hkdfEnc "q".data), []⟩ ⟨[], []⟩
    (CKey.hkdfEnc "q".data) "x".data [("title".data, .jstr "a".data)] "t".data [3, 3] rfl
    (by simp)

/-- C5: the explicit-identity rate-limiter contract — from a fresh record,
5 failed attempts lock the identity out for 30 seconds, 10 for 5 minutes
(the longer lockout written last takes precedence), and a successful attempt
deletes the record so the next check is allowed. -/
theorem C5_rate_limiter_escalation (m : RLMap) (ident : List Char)
    (hid : ident ≠ []) (hfresh : assocGet m ident = none) :
    (∀ t1 t2 t3 t4 t5 t : Nat, t5 ≤ t → t < t5 + LOCKOUT_30S →
        (checkLimit (failN m ident [t1, t2, t3, t4, t5]) (some ident) t).1 =
          ⟨false, some (t5 + LOCKOUT_30S - t)⟩ ∧
        t5 + LOCKOUT_30S - t ≤ LOCKOUT_30S) ∧
    (∀ t1 t2 t3 t4 t5 t6 t7 t8 t9 t10 t : Nat, t10 ≤ t → t < t10 + LOCKOUT_5MIN →
        (checkLimit (failN m ident [t1, t2, t3, t4, t5, t6, t7, t8, t9, t10])
            (some ident) t).1 =
          ⟨false, some (t10 + LOCKOUT_5MIN - t)⟩ ∧
        t10 + LOCKOUT_5MIN - t ≤ LOCKOUT_5MIN) ∧
    (∀ (m' : RLMap) (tS t' : Nat),
        assocGet (recordSuccessfulAttempt m' (some ident) tS) ident = none ∧
        (checkLimit (recordSuccessfulAttempt m' (some ident) tS) (some ident) t').1.allowed =
          true) := by
  refine ⟨?_, ?_, ?_⟩
  · intro t1 t2 t3 t4 t5 t ht1 ht2
    have e1 : failN m ident [t1, t2, t3, t4, t5] =
        assocPut m ident ⟨5, t5, t5 + LOCKOUT_30S⟩ := by
      simp [failN, recordFailedAttempt, resolveClientId, hid, hfresh, assocGet_assocPut,
        assocPut_assocPut, ATTEMPTS_30S, ATTEMPTS_5MIN, LOCKOUT_30S, LOCKOUT_5MIN]
    rw [e1]
    constructor
    · simp only [LOCKOUT_30S] at ht2
      simp [checkLimit, resolveClientId, hid, assocGet_assocPut, LOCKOUT_30S, ht2]
    · simp only [LOCKOUT_30S]
      omega
  · intro t1 t2 t3 t4 t5 t6 t7 t8 t9 t10 t ht1 ht2
    have e1 : failN m ident [t1, t2, t3, t4, t5, t6, t7, t8, t9, t10] =
        assocPut m ident ⟨10, t10, t10 + LOCKOUT_5MIN⟩ := by
      simp [failN, recordFailedAttempt, resolveClientId, hid, hfresh, assocGet_assocPut,
        assocPut_assocPut, ATTEMPTS_30S, ATTEMPTS_5MIN, LOCKOUT_30S, LOCKOUT_5MIN]
    rw [e1]
    constructor
    · simp only [LOCKOUT_5MIN] at ht2
      simp [checkLimit, resolveClientId, hid, assocGet_assocPut, LOCKOUT_5MIN, ht2]
    · simp only [LOCKOUT_5MIN]
      omega
  · intro m' tS t'
    constructor
    · simp [recordSuccessfulAttempt, resolveClientId, hid, assocGet_assocDelete]
    · simp [checkLimit, recordSuccessfulAttempt, resolveClientId, hid, assocGet_assocDelete]

/-- Witness for C5: a fresh identity, five failures at times 0–4, checked at
time 5. -/
theorem C5_rate_limiter_escalation_witness :
    (checkLimit (failN [] "id".data [0, 1, 2, 3, 4]) (some "id".data) 5).1 =
      ⟨false, some (4 + LOCKOUT_30S - 5)⟩ ∧ 4 + LOCKOUT_30S - 5 ≤ LOCKOUT_30S :=
  (C5_rate_limiter_escalation [] "id".data (by decide) rfl).1 0 1 2 3 4 5 (by decide)
    (by decide)

/-- C4 (code defect): in the default unlock path `getClientIdentifier` embeds
the last six digits of `Date.now()`, so five failed attempts at five
successive milliseconds accrue on five distinct records and the next
`checkLimit()` is allowed instead of refused; a later successful attempt
deletes nothing either, because it, too, resolves to a fresh identifier. -/
theorem C4_default_identifier_never_locks_out :
    (checkLimit
      (recordFailedAttempt (recordFailedAttempt (recordFailedAttempt (recordFailedAttempt
        (recordFailedAttempt [] none 1700000000000) none 1700000000001) none 1700000000002)
        none 1700000000003) none 1700000000004)
      none 1700000000005).1.allowed = true ∧
    getClientIdentifier 1700000000000 ≠ getClientIdentifier 1700000000001 ∧
    recordSuccessfulAttempt (recordFailedAttempt [] none 1700000000000) none 1700000000001 =
      recordFailedAttempt [] none 1700000000000 := by
  refine ⟨?_, ?_, ?_⟩ <;> decide

theorem isB32Char_ne_eq : isB32Char '=' = false := by decide

theorem base32Test_iff (s : List Char) :
    base32Test s = true ↔
      ∃ body pad, s = body ++ pad ∧ body ≠ [] ∧ (∀ c ∈ body, isB32Char c = true) ∧
        ∀ c ∈ pad, c = '=' := by
  constructor
  · intro h
    simp only [base32Test, Bool.and_eq_true, decide_eq_true_eq, List.all_eq_true] at h
    refine ⟨s.takeWhile isB32Char, s.dropWhile isB32Char,
      (List.takeWhile_append_dropWhile isB32Char s).symm, h.1, ?_, ?_⟩
    · intro c hc
      exact List.mem_takeWhile_imp hc
    · intro c hc
      have := h.2 c hc
      simpa using this
  · rintro ⟨body, pad, rfl, hne, hb, hp⟩
    have hsplit := takeWhile_append_all (p := isB32Char) body pad hb (fun c hc => by
      have hcp : c ∈ pad := List.mem_of_mem_head? hc
      rw [hp c hcp]
      exact isB32Char_ne_eq)
    simp only [base32Test, hsplit.1, hsplit.2, Bool.and_eq_true, decide_eq_true_eq,
      List.all_eq_true]
    exact ⟨hne, fun c hc => by simpa using hp c hc⟩

/-- C8 counterexample: totp.ts's `isValidTOTPSecret` accepts a 101-character
secret, contradicting the claimed 100-character upper bound. -/
theorem C8_no_upper_bound_counterexample :
    isValidTOTPSecret (List.replicate 101 'A') = true ∧
    (List.replicate 101 'A').length = 101 := by
  constructor
  · decide
  · simp

/-- C8 (amended): totp.ts's `isValidTOTPSecret` returns true exactly for
case-insensitive base32 strings (nonempty base32 run, optional trailing `=`
padding) of length at least 16 — with no upper bound; the additional
100-character cap holds only for webauthn.ts's
`Validators.isValidTOTPSecret`. -/
theorem C8_totp_secret_validation (s : List Char) :
    (isValidTOTPSecret s = true ↔
      (∃ body pad, s = body ++ pad ∧ body ≠ [] ∧ (∀ c ∈ body, isB32Char c = true) ∧
        ∀ c ∈ pad, c = '=') ∧ 16 ≤ s.length) ∧
    (validatorsIsValidTOTPSecret s = true ↔
      (∃ body pad, s = body ++ pad ∧ body ≠ [] ∧ (∀ c ∈ body, isB32Char c = true) ∧
        ∀ c ∈ pad, c = '=') ∧ 16 ≤ s.length ∧ s.length ≤ 100) := by
  constructor
  · simp [isValidTOTPSecret, Bool.and_eq_true, decide_eq_true_eq, base32Test_iff,
      and_assoc]
  · simp [validatorsIsValidTOTPSecret, Bool.and_eq_true, decide_eq_true_eq, base32Test_iff,
      and_assoc]

/-- C2: for every blob that base64-decodes, decrypts under the backup key and
carries the expected signature marker, a recomputed checksum differing from
the stored one makes the import fail on the integrity check — surfaced
through the inner catch as the generic incompatibility error — with the
persisted store (entries and meta salt) completely unchanged, in either mode. -/
theorem C2_checksum_mismatch_rejected (blob pw : List Char) (mode : ImportMode) (db : Db)
    (pf : List Char → Bool) (bs pt : List Nat) (backup : Json)
    (h1 : b64decode blob = some bs)
    (h2 : decBytes (CKey.hkdfEnc pw) (bs.take 12) (bs.drop 12) = some pt)
    (h3 : parseJson (utf8Dec pt) = some backup)
    (h4 : jGetStr backup "signature".data = some backupMarker)
    (h5 : jGetStr backup "checksum".data ≠
      some (checksumOf pw (jsonStr (rebuiltBackupData backup)))) :
    importInner bs pw mode db pf = .error .integrityFailed ∧
    importVaultBackup blob pw mode db pf = (.error .incompatible, db) := by
  have hin : importInner bs pw mode db pf = .error .integrityFailed := by
    simp [importInner, h2, h3, h4, h5]
  exact ⟨hin, by simp [importVaultBackup, h1, hin]⟩

/-- A parsed backup whose checksum field is wrong, for the C2 witness. -/
def c2Backup : Json :=
  .jobj (jobjOf [("signature".data, .jstr backupMarker), ("checksum".data, .jstr "WRONG".data)])

/-- The C2 witness blob: correctly IV-prefixed and encrypted, bad checksum. -/
def c2Blob : List Char :=
  b64encode ([9, 9, 9, 9, 9, 9, 9, 9, 9, 9, 9, 9] ++
    encBytes (CKey.hkdfEnc "p".data) [9, 9, 9, 9, 9, 9, 9, 9, 9, 9, 9, 9]
      (utf8Enc (jsonStr c2Backup)))

/-- The store the C2 witness import starts from. -/
def c2Db : Db := ⟨[("k".data, "v".data)], [("salt".data, "s".data)]⟩

/-- Witness for C2: the bad-checksum blob is rejected and the store survives. -/
theorem C2_checksum_mismatch_rejected_witness :
    importInner ([9, 9, 9, 9, 9, 9, 9, 9, 9, 9, 9, 9] ++
        encBytes (CKey.hkdfEnc "p".data) [9, 9, 9, 9, 9, 9, 9, 9, 9, 9, 9, 9]
          (utf8Enc (jsonStr c2Backup))) "p".data .merge c2Db (fun _ => false) =
      .error .integrityFailed ∧
    importVaultBackup c2Blob "p".data .merge c2Db (fun _ => false) =
      (.error .incompatible, c2Db) :=
  C2_checksum_mismatch_rejected c2Blob "p".data .merge c2Db (fun _ => false) _ _ c2Backup
    (by rfl) (by rfl) (by rfl) (by rfl) (by decide)

/-- The vault the C1 run exports: a salt and one persisted envelope row. -/
def c1Db : Db := ⟨[("a".data, "ENC".data)], [("salt".data, "s".data)]⟩

/-- The IV drawn at export in the C1 run. -/
def c1Iv : List Nat := [0, 1, 2, 3, 4, 5, 6, 7, 8, 9, 10, 11]

/-- The result of the C1 export. -/
def c1Export : Except (List Char) (List Char) :=
  exportVaultBackup "p".data "T".data "F".data c1Iv c1Db

/-- The blob the C1 export produced. -/
def c1Blob : List Char :=
  match c1Export with
  | .ok b => b
  | .error _ => []

/-- C1 (code defect): the export succeeds, but the decoded bytes of its blob do
not begin with the 12-byte IV (the `combined` buffer is built and dropped, and
only the ciphertext is base64-encoded), so importing the freshly exported
backup with the same password fails instead of restoring the store. -/
theorem C1_export_omits_iv_roundtrip_fails :
    c1Export = .ok c1Blob ∧
    (b64decode c1Blob).map (fun bs => bs.take 12) ≠ some c1Iv ∧
    importVaultBackup c1Blob "p".data .overwrite c1Db (fun _ => false) =
      (.error .incompatible, c1Db) := by
  exact ⟨rfl, by decide, by rfl⟩

theorem jarrToList_jarrOf (l : List Json) : jarrToList (jarrOf l) = l := by
  induction l with
  | nil => simp [jarrOf, jarrToList]
  | cons v rest ih => simp [jarrOf, jarrToList, ih]

theorem assocPut_length_fresh {α : Type} (rows : List (List Char × α)) (k : List Char) (v : α)
    (h : assocGet rows k = none) : (assocPut rows k v).length = rows.length + 1 := by
  induction rows with
  | nil => simp [assocPut]
  | cons p rest ih =>
      by_cases hk : p.1 = k
      · simp [assocGet, hk] at h
      · simp only [assocGet, hk, if_neg, ite_false] at h
        simp [assocPut, hk, ih h]

theorem importLoop_merge_length (pf : List Char → Bool) (l : List Json) :
    ∀ rows cnt, (importLoop .merge pf l rows cnt).2.length + cnt =
      rows.length + (importLoop .merge pf l rows cnt).1 := by
  induction l with
  | nil =>
      intro rows cnt
      simp [importLoop]
  | cons e rest ih =>
      intro rows cnt
      cases hef : entryFields e with
      | none => simpa [importLoop, hef] using ih rows cnt
      | some pr =>
          obtain ⟨i, enc⟩ := pr
          cases hg : assocGet rows i with
          | some old => simpa [importLoop, hef, hg] using ih rows cnt
          | none =>
              by_cases hpf : pf i
              · simpa [importLoop, hef, hg, hpf] using ih rows cnt
              · have hlen := assocPut_length_fresh rows i enc hg
                have h2 := ih (assocPut rows i enc) (cnt + 1)
                simp only [importLoop, hef, hg, hpf, Bool.false_eq_true, if_false]
                omega

/-- The `BackupFile` JSON a well-formed export would carry: body, signature,
correct checksum, key fingerprint. -/
def backupFileJson (pw salt createdAt fp : List Char)
    (entries : List (List Char × List Char)) : Json :=
  .jobj (jobjOf (backupDataFields salt createdAt fp entries ++
    [("signature".data, .jstr backupMarker),
     ("checksum".data, .jstr (checksumOf pw
        (jsonStr (.jobj (jobjOf (backupDataFields salt createdAt fp entries)))))),
     ("keyFingerprint".data,
        .jstr (b64encode (hmacBytes (CKey.hkdfHmac pw) (utf8Enc "key-verification".data))))]))

/-- A well-formed backup blob in the shape `importVaultBackup` expects:
base64 of IV followed by the ciphertext of the signed, checksummed file. -/
def mkBackupBlob (pw salt createdAt fp : List Char)
    (entries : List (List Char × List Char)) (iv : List Nat) : List Char :=
  b64encode (iv ++ encBytes (CKey.hkdfEnc pw) iv
    (utf8Enc (jsonStr (backupFileJson pw salt createdAt fp entries))))

theorem importVaultBackup_mkBackupBlob (pw salt createdAt fp : List Char)
    (entries : List (List Char × List Char)) (iv : List Nat) (db : Db)
    (pf : List Char → Bool) (mode : ImportMode)
    (hiv : iv.length = 12) (hivb : ∀ b ∈ iv, b < 256) :
    importVaultBackup (mkBackupBlob pw salt createdAt fp entries iv) pw mode db pf =
      (let db1 : Db := match mode with
        | .overwrite => ⟨[], [("salt".data, salt)]⟩
        | .merge => db
      let es := entries.map fun p =>
        Json.jobj (jobjOf [("id".data, Json.jstr p.1), ("encrypted".data, Json.jstr p.2)])
      let r := importLoop mode pf es db1.entries 0
      (Except.ok (es.length,
          match mode with
          | .overwrite => es.length
          | .merge => r.1),
        { db1 with entries := r.2 })) := by
  have hb : ∀ x ∈ iv ++ encBytes (CKey.hkdfEnc pw) iv
      (utf8Enc (jsonStr (backupFileJson pw salt createdAt fp entries))), x < 256 := by
    intro x hx
    rcases List.mem_append.mp hx with h | h
    · exact hivb x h
    · exact encBytes_lt _ _ _ x h
  have h1 : b64decode (mkBackupBlob pw salt createdAt fp entries iv) =
      some (iv ++ encBytes (CKey.hkdfEnc pw) iv
        (utf8Enc (jsonStr (backupFileJson pw salt createdAt fp entries)))) :=
    b64decode_b64encode _ hb
  have htake : (iv ++ encBytes (CKey.hkdfEnc pw) iv
      (utf8Enc (jsonStr (backupFileJson pw salt createdAt fp entries)))).take 12 = iv := by
    rw [← hiv]
    exact List.take_left _ _
  have hdrop : (iv ++ encBytes (CKey.hkdfEnc pw) iv
      (utf8Enc (jsonStr (backupFileJson pw salt createdAt fp entries)))).drop 12 =
      encBytes (CKey.hkdfEnc pw) iv
        (utf8Enc (jsonStr (backupFileJson pw salt createdAt fp entries))) := by
    rw [← hiv]
    exact List.drop_left _ _
  have hdec := decBytes_encBytes (CKey.hkdfEnc pw) iv
    (utf8Enc (jsonStr (backupFileJson pw salt createdAt fp entries)))
  have hparse : parseJson (utf8Dec (utf8Enc
      (jsonStr (backupFileJson pw salt createdAt fp entries)))) =
      some (backupFileJson pw salt createdAt fp entries) := by
    rw [utf8Dec_utf8Enc]
    exact parseJson_jsonStr _
  have hsig : jGetStr (backupFileJson pw salt createdAt fp entries) "signature".data =
      some backupMarker := rfl
  have hcs : jGetStr (backupFileJson pw salt createdAt fp entries) "checksum".data =
      some (checksumOf pw
        (jsonStr (rebuiltBackupData (backupFileJson pw salt createdAt fp entries)))) := rfl
  have hent : jGet (backupFileJson pw salt createdAt fp entries) "entries".data =
      some (.jarr (jarrOf (entries.map fun p =>
        Json.jobj (jobjOf [("id".data, Json.jstr p.1), ("encrypted".data, Json.jstr p.2)])))) :=
    rfl
  have hsalt2 : (jGetStr (backupFileJson pw salt createdAt fp entries) "salt".data).getD [] =
      salt := rfl
  simp [importVaultBackup, h1, importInner, htake, hdrop, hdec, hparse, hsig, hcs, hent,
    hsalt2, jarrToList_jarrOf]

/-- The C7 counterexample blob: a well-formed two-entry backup. -/
def c7Blob : List Char :=
  mkBackupBlob "p".data "s".data "T".data "F".data
    [("a".data, "EA".data), ("b".data, "EB".data)] [0, 1, 2, 3, 4, 5, 6, 7, 8, 9, 10, 11]

/-- In the C7 counterexample run, persisting the row with id `a` fails. -/
def c7pf : List Char → Bool := fun i => decide (i = "a".data)

/-- C7 counterexample: in overwrite mode with one per-entry persistence
failure, only one of the two rows is written, yet the result still reports
`imported = 2` — `imported` does not count the entries actually written. -/
theorem C7_overwrite_imported_not_reduced :
    (importVaultBackup c7Blob "p".data .overwrite ⟨[], [("salt".data, "s".data)]⟩ c7pf).1 =
      .ok (2, 2) ∧
    (importVaultBackup c7Blob "p".data .overwrite ⟨[], [("salt".data, "s".data)]⟩
        c7pf).2.entries.length = 1 := by
  have h := importVaultBackup_mkBackupBlob "p".data "s".data "T".data "F".data
    [("a".data, "EA".data), ("b".data, "EB".data)] [0, 1, 2, 3, 4, 5, 6, 7, 8, 9, 10, 11]
    ⟨[], [("salt".data, "s".data)]⟩ c7pf .overwrite (by decide) (by decide)
  constructor
  · simp only [c7Blob]
    rw [h]
    rfl
  · simp only [c7Blob]
    rw [h]
    rfl

/-- C7 (amended): `totalEntries` is the backup's entry count; in merge mode
`imported` counts exactly the entries newly written (the persisted row count
grows by exactly `imported`, with per-entry failures and existing ids
reducing it); in overwrite mode the reported `imported` always equals
`totalEntries`, even when per-entry persistence failures leave fewer rows
written. -/
theorem C7_import_result_counts (pw salt createdAt fp : List Char)
    (entries : List (List Char × List Char)) (iv : List Nat) (db : Db)
    (pf : List Char → Bool) (hiv : iv.length = 12) (hivb : ∀ b ∈ iv, b < 256) :
    (importVaultBackup (mkBackupBlob pw salt createdAt fp entries iv) pw .overwrite db pf).1 =
      .ok (entries.length, entries.length) ∧
    ∃ cnt db',
      importVaultBackup (mkBackupBlob pw salt createdAt fp entries iv) pw .merge db pf =
        (.ok (entries.length, cnt), db') ∧
      db'.entries.length = db.entries.length + cnt := by
  have ho := importVaultBackup_mkBackupBlob pw salt createdAt fp entries iv db pf .overwrite
    hiv hivb
  have hm := importVaultBackup_mkBackupBlob pw salt createdAt fp entries iv db pf .merge
    hiv hivb
  constructor
  · rw [ho]
    simp
  · rw [hm]
    refine ⟨(importLoop .merge pf (entries.map fun p =>
        Json.jobj (jobjOf [("id".data, Json.jstr p.1), ("encrypted".data, Json.jstr p.2)]))
        db.entries 0).1,
      ⟨(importLoop .merge pf (entries.map fun p =>
        Json.jobj (jobjOf [("id".data, Json.jstr p.1), ("encrypted".data, Json.jstr p.2)]))
        db.entries 0).2, db.meta⟩, ?_, ?_⟩
    · simp
    · have hl := importLoop_merge_length pf (entries.map fun p =>
        Json.jobj (jobjOf [("id".data, Json.jstr p.1), ("encrypted".data, Json.jstr p.2)]))
        db.entries 0
      simpa using hl

/-- Witness for C7's amended theorem at a concrete one-entry backup. -/
theorem C7_import_result_counts_witness :
    (importVaultBackup (mkBackupBlob "p".data "s".data "T".data "F".data
        [("a".data, "EA".data)] [0, 1, 2, 3, 4, 5, 6, 7, 8, 9, 10, 11]) "p".data .overwrite
        ⟨[], []⟩ (fun _ => false)).1 = .ok (1, 1) ∧
    ∃ cnt db',
      importVaultBackup (mkBackupBlob "p".data "s".data "T".data "F".data
          [("a".data, "EA".data)] [0, 1, 2, 3, 4, 5, 6, 7, 8, 9, 10, 11]) "p".data .merge
          ⟨[], []⟩ (fun _ => false) = (.ok (1, cnt), db') ∧
      db'.entries.length = (⟨[], []⟩ : Db).entries.length + cnt :=
  C7_import_result_counts "p".data "s".data "T".data "F".data [("a".data, "EA".data)]
    [0, 1, 2, 3, 4, 5, 6, 7, 8, 9, 10, 11] ⟨[], []⟩ (fun _ => false) (by decide) (by decide)
